import Mathlib

/-!
# CurrentMap: the segment of a concurrent hash map

A shallow embedding of `src/CurrentMap/segment.go` and a verification of the properties the
specification states about it.

The segment is embedded sequentially: every operation is a function from the state before the
call to the result of the call and the state after it.  A Go run-time panic that leaves an
operation is a `Fault`; the panics of the policy, which `redistribute` recovers, are the
`Except String` results of the methods of the policy.  Unsigned 64-bit arithmetic is arithmetic on
natural numbers reduced modulo `2 ^ 64`.
-/

set_option autoImplicit false

namespace CurrentMap

/-! ## Collaborators declared outside `segment.go` -/

/-- Modelled from the spec: the Pair type is declared outside segment.go.  Section 3 gives it
as a key, a value slot and a hash that is computed once at construction; the hash is a uint64,
read here as a natural number. -/
structure Pair (V : Type) where
  key : String
  value : V
  hash : Nat
  deriving DecidableEq, Repr

/-- The method `Hash()` of a Pair: the precomputed hash. -/
def Pair.Hash {V : Type} (p : Pair V) : Nat := p.hash

/-- Go `error` values that a `Put` can hand back: the error built by
`newPairRedistributorError` from a message, and an error of the bucket. -/
inductive Error where
  | pairRedistributorError (msg : String)
  | bucketError (msg : String)
  deriving DecidableEq, Repr

/-- Constructor `newPairRedistributorError` of the source, applied to a message. -/
def newPairRedistributorError (msg : String) : Error := Error.pairRedistributorError msg

/-- Modelled from the spec: the Bucket type is declared outside segment.go.  Sections 3 and 4.2
give it as an ordered chain of Pairs with insert-or-overwrite, lookup, delete and size. -/
structure Bucket (V : Type) where
  chain : List (Pair V)
  deriving DecidableEq, Repr

/-- Modelled from the spec: NewBucket is declared outside segment.go; a new bucket has an empty
chain. -/
def NewBucket {V : Type} : Bucket V := ⟨[]⟩

/-- In-place overwrite of the value of the first chain entry whose key equals the key of `p`. -/
def overwrite {V : Type} (p : Pair V) : List (Pair V) → List (Pair V)
  | [] => []
  | q :: qs => if q.key = p.key then { q with value := p.value } :: qs else q :: overwrite p qs

/-- Modelled from the spec: Bucket.Get is declared outside segment.go.  Section 4.2: the chain
is scanned for the key; the result is the Pair or absent. -/
def Bucket.Get {V : Type} (b : Bucket V) (key : String) : Option (Pair V) :=
  b.chain.find? (fun q => decide (q.key = key))

/-- Modelled from the spec: Bucket.Put is declared outside segment.go.  Section 4.2: "Put scans
the chain for an existing equal key: if found, overwrites its value in place and reports no new
insertion; otherwise appends a new chain entry and reports insertion."  The segment passes no
lock, and insertion does not fail. -/
def Bucket.Put {V : Type} (b : Bucket V) (p : Pair V) : Bucket V × Bool × Option Error :=
  if b.chain.any (fun q => decide (q.key = p.key)) then (⟨overwrite p b.chain⟩, false, none)
  else (⟨b.chain ++ [p]⟩, true, none)

/-- Modelled from the spec: Bucket.Delete is declared outside segment.go.  Section 4.2: "Delete
scans and removes the first (and only) matching entry"; the result tells whether one was
removed.  The segment passes no lock. -/
def Bucket.Delete {V : Type} (b : Bucket V) (key : String) : Bucket V × Bool :=
  (⟨b.chain.eraseP (fun q => decide (q.key = key))⟩, b.chain.any (fun q => decide (q.key = key)))

/-- Modelled from the spec: Bucket.Size is declared outside segment.go; it is the number of
entries of the chain. -/
def Bucket.Size {V : Type} (b : Bucket V) : Nat := b.chain.length

/-- The type BucketStatus is declared outside segment.go; the segment only passes its values
from `CheckBucketStatus` to `Redistributor`.  A status is a code. -/
abbrev BucketStatus := Nat

/-- The interface PairRedistributor: a stateful policy.  Its declaration is outside
segment.go; the three methods are the ones `redistribute` calls.  A method takes the state of
the policy and returns the state it leaves behind together with either its result or the message
of the panic it raised. -/
structure PairRedistributor (V σ : Type) where
  state : σ
  UpdateThreshold : σ → Nat → Nat → σ × Except String Unit
  CheckBucketStatus : σ → Nat → Nat → σ × Except String BucketStatus
  Redistributor : σ → BucketStatus → List (Bucket V) → σ × Except String (List (Bucket V) × Bool)

/-- The policy object after one of its methods has left the state `st`. -/
def PairRedistributor.withState {V σ : Type} (r : PairRedistributor V σ) (st : σ) :
    PairRedistributor V σ :=
  { r with state := st }

/-! ## The segment -/

/-- A non-nil value of the interface `sync.Locker`.  In a sequential run every operation
releases the lock before it returns, so the lock carries no further state. -/
structure Locker where
  deriving DecidableEq, Repr

/-- Run-time panics that leave an operation of the segment. -/
inductive Fault where
  | nilDereference
  | divideByZero
  | indexOutOfRange
  | makesliceLenOutOfRange
  deriving DecidableEq, Repr

/-- The struct `segment`.  `bucketsLen` is a Go `int` that is only ever assigned a bucket count
or a slice length; `pairTotal` is a uint64; a nil `lock` is `none`. -/
structure segment (V σ : Type) where
  buckets : List (Bucket V)
  bucketsLen : Nat
  pairTotal : Nat
  pairRedistributor : PairRedistributor V σ
  lock : Option Locker

/-- The function `newSegment`: the segment it returns, or the panic of `make`.  The constant
DEFAULT_BUCKET_NUMBER and the constructor `newDefaultPairRedistributor` (already applied to
DEFAULT_BUCKET_LOAD_FACTOR) are declared outside segment.go and are parameters; a nil
redistributor is `none`.  `make([]Bucket, bucketNumber)` panics (makeslice: len out of range)
when the length is beyond what the runtime allocates; that bound depends on the platform and is
the parameter `maxSliceLen`.  The struct literal of the source sets `buckets`, `bucketsLen` and
`pairRedistributor`; `pairTotal` and `lock` keep their zero values. -/
def newSegment {V σ : Type} (DEFAULT_BUCKET_NUMBER : Nat) (maxSliceLen : Nat)
    (newDefaultPairRedistributor : Nat → PairRedistributor V σ)
    (bucketNumber : Int) (redistributor : Option (PairRedistributor V σ)) :
    Except Fault (segment V σ) :=
  let bucketNumber : Nat := if bucketNumber ≤ 0 then DEFAULT_BUCKET_NUMBER else bucketNumber.toNat
  let redistributor : PairRedistributor V σ :=
    match redistributor with
    | none => newDefaultPairRedistributor bucketNumber
    | some r => r
  if maxSliceLen < bucketNumber then Except.error Fault.makesliceLenOutOfRange
  else
    Except.ok
      { buckets := List.replicate bucketNumber NewBucket
        bucketsLen := bucketNumber
        pairTotal := 0
        pairRedistributor := redistributor
        lock := none }

/-- The call `s.lock.Lock()`: a method call on a nil interface value panics. -/
def acquire (lock : Option Locker) : Except Fault Unit :=
  match lock with
  | none => Except.error Fault.nilDereference
  | some _ => Except.ok ()

/-- The expression `s.buckets[int(h % uint64(s.bucketsLen))]`: the index and the bucket
found there.  The remainder by zero and an index beyond the slice panic. -/
def bucketAt {V σ : Type} (s : segment V σ) (h : Nat) : Except Fault (Nat × Bucket V) :=
  if s.bucketsLen = 0 then Except.error Fault.divideByZero
  else
    match s.buckets[h % s.bucketsLen]? with
    | none => Except.error Fault.indexOutOfRange
    | some b => Except.ok (h % s.bucketsLen, b)

/-- The method `redistribute`: the state after the call and the error it returns.  A panic of
any of the three policy calls is recovered and becomes a PairRedistributorError; the assignment
to `buckets` and `bucketsLen` is reached only when all three calls return and `changed` holds. -/
def segment.redistribute {V σ : Type} (s : segment V σ) (pairTotal bucketSize : Nat) :
    segment V σ × Option Error :=
  let r := s.pairRedistributor
  match r.UpdateThreshold r.state pairTotal s.bucketsLen with
  | (st1, Except.error msg) =>
    ({ s with pairRedistributor := r.withState st1 }, some (newPairRedistributorError msg))
  | (st1, Except.ok _) =>
    match r.CheckBucketStatus st1 pairTotal bucketSize with
    | (st2, Except.error msg) =>
      ({ s with pairRedistributor := r.withState st2 }, some (newPairRedistributorError msg))
    | (st2, Except.ok bucketStatus) =>
      match r.Redistributor st2 bucketStatus s.buckets with
      | (st3, Except.error msg) =>
        ({ s with pairRedistributor := r.withState st3 }, some (newPairRedistributorError msg))
      | (st3, Except.ok (newBuckets, changed)) =>
        if changed then
          ({ s with buckets := newBuckets, bucketsLen := newBuckets.length,
                    pairRedistributor := r.withState st3 }, none)
        else
          ({ s with pairRedistributor := r.withState st3 }, none)

/-- The method `Put`: the state after the call, `ok` and `err`.  The bucket is mutated in
place, so the array holds the bucket after its own Put; the value `redistribute` returns is
dropped by the source, and `err` is the error of the bucket. -/
def segment.Put {V σ : Type} (s : segment V σ) (p : Pair V) :
    Except Fault (segment V σ × Bool × Option Error) :=
  match acquire s.lock with
  | Except.error f => Except.error f
  | Except.ok _ =>
    match bucketAt s p.Hash with
    | Except.error f => Except.error f
    | Except.ok (i, b) =>
      match b.Put p with
      | (b1, ok, err) =>
        let s1 : segment V σ := { s with buckets := s.buckets.set i b1 }
        if ok then
          let newTotal := (s1.pairTotal + 1) % 2 ^ 64
          let s2 : segment V σ := { s1 with pairTotal := newTotal }
          Except.ok ((s2.redistribute newTotal b1.Size).1, ok, err)
        else
          Except.ok (s1, ok, err)

/-- The method `GetWithHash`: the Pair found, or absent. -/
def segment.GetWithHash {V σ : Type} (s : segment V σ) (key : String) (keyhash : Nat) :
    Except Fault (Option (Pair V)) :=
  match acquire s.lock with
  | Except.error f => Except.error f
  | Except.ok _ =>
    match bucketAt s keyhash with
    | Except.error f => Except.error f
    | Except.ok (_, b) => Except.ok (b.Get key)

/-- The method `Get`.  The function `hash` of the package is declared outside segment.go and is
a parameter. -/
def segment.Get {V σ : Type} (hash : String → Nat) (s : segment V σ) (key : String) :
    Except Fault (Option (Pair V)) :=
  s.GetWithHash key (hash key)

/-- The method `Delete`: the state after the call and `ok`.  Adding `^uint64(0)` is adding
`2 ^ 64 - 1` modulo `2 ^ 64`. -/
def segment.Delete {V σ : Type} (hash : String → Nat) (s : segment V σ) (key : String) :
    Except Fault (segment V σ × Bool) :=
  match acquire s.lock with
  | Except.error f => Except.error f
  | Except.ok _ =>
    match bucketAt s (hash key) with
    | Except.error f => Except.error f
    | Except.ok (i, b) =>
      match b.Delete key with
      | (b1, ok) =>
        let s1 : segment V σ := { s with buckets := s.buckets.set i b1 }
        if ok then
          let newTotal := (s1.pairTotal + (2 ^ 64 - 1)) % 2 ^ 64
          let s2 : segment V σ := { s1 with pairTotal := newTotal }
          Except.ok ((s2.redistribute newTotal b1.Size).1, ok)
        else
          Except.ok (s1, ok)

/-- The method `Size`: an atomic load of `pairTotal`. -/
def segment.Size {V σ : Type} (s : segment V σ) : Nat := s.pairTotal

/-- The segment as `Put` hands it to `redistribute` after an insertion: bucket `i` is the
bucket after its own Put and the counter has been incremented. -/
def segment.putMid {V σ : Type} (s : segment V σ) (i : Nat) (b1 : Bucket V) : segment V σ :=
  { s with buckets := s.buckets.set i b1, pairTotal := (s.pairTotal + 1) % 2 ^ 64 }

/-- The segment as `Delete` hands it to `redistribute` after a removal: bucket `i` is the
bucket after its own Delete and the counter has been decremented. -/
def segment.deleteMid {V σ : Type} (s : segment V σ) (i : Nat) (b1 : Bucket V) : segment V σ :=
  { s with buckets := s.buckets.set i b1, pairTotal := (s.pairTotal + (2 ^ 64 - 1)) % 2 ^ 64 }

/-! ## Specification vocabulary -/

/-- Every Pair stored in a bucket array, bucket by bucket. -/
def allPairs {V : Type} (bs : List (Bucket V)) : List (Pair V) :=
  (bs.map Bucket.chain).flatten

/-- The keys stored in a segment, with repetitions if a key is stored more than once. -/
def segment.keys {V σ : Type} (s : segment V σ) : List String :=
  (allPairs s.buckets).map Pair.key

/-- The number of distinct keys stored in a segment. -/
def segment.distinctKeys {V σ : Type} (s : segment V σ) : Nat :=
  s.keys.dedup.length

/-- The sum of the sizes of all buckets of a segment. -/
def segment.bucketSizeSum {V σ : Type} (s : segment V σ) : Nat :=
  (s.buckets.map Bucket.Size).sum

/-- Every Pair of bucket `i` has `Hash() mod length = i`. -/
def Placed {V : Type} (bs : List (Bucket V)) : Prop :=
  ∀ ib ∈ bs.enum, ∀ p ∈ ib.2.chain, p.Hash % bs.length = ib.1

/-- The `Hash()` of every stored Pair is the hash of its key. -/
def HashOfKey {V : Type} (hash : String → Nat) (bs : List (Bucket V)) : Prop :=
  ∀ p ∈ allPairs bs, p.Hash = hash p.key

/-- A well-formed bucket array: it is not empty, every Pair sits in the bucket its hash selects,
the hash of a Pair is the hash of its key, and no key is stored twice. -/
structure WellFormed {V : Type} (hash : String → Nat) (bs : List (Bucket V)) : Prop where
  nonempty : 0 < bs.length
  placed : Placed bs
  hashOfKey : HashOfKey hash bs
  nodupKeys : ((allPairs bs).map Pair.key).Nodup

/-- The representation invariant of a segment: the lock is initialised, `bucketsLen` is the
length of the bucket array, and the array is well formed. -/
structure segment.Inv {V σ : Type} (hash : String → Nat) (s : segment V σ) : Prop where
  locked : s.lock.isSome = true
  len : s.bucketsLen = s.buckets.length
  wf : WellFormed hash s.buckets

/-- Section 4.3, the rebuild: `new` is not empty and holds exactly the Pairs of `old`, each in
the bucket `Hash() mod` the new length. -/
def IsRehash {V : Type} (old new : List (Bucket V)) : Prop :=
  0 < new.length ∧ (allPairs new).Perm (allPairs old) ∧ Placed new

/-- The contract of section 4.3 for a policy: whenever `Redistributor` reports a change, the
array it returns is a rehash of the array it was given. -/
def PolicyContract {V σ : Type} (r : PairRedistributor V σ) : Prop :=
  ∀ st status old st1 new,
    r.Redistributor st status old = (st1, Except.ok (new, true)) → IsRehash old new

/-- One of the three policy calls made by `redistribute s pairTotal bucketSize` panics. -/
def PolicyFaults {V σ : Type} (s : segment V σ) (pairTotal bucketSize : Nat) : Prop :=
  let r := s.pairRedistributor
  (∃ st msg, r.UpdateThreshold r.state pairTotal s.bucketsLen = (st, Except.error msg)) ∨
  (∃ st1 u st msg, r.UpdateThreshold r.state pairTotal s.bucketsLen = (st1, Except.ok u) ∧
      r.CheckBucketStatus st1 pairTotal bucketSize = (st, Except.error msg)) ∨
  (∃ st1 u st2 status st msg,
      r.UpdateThreshold r.state pairTotal s.bucketsLen = (st1, Except.ok u) ∧
      r.CheckBucketStatus st1 pairTotal bucketSize = (st2, Except.ok status) ∧
      r.Redistributor st2 status s.buckets = (st, Except.error msg))

/-- A call of the interface of the segment that changes the segment. -/
inductive Op (V : Type) where
  | put (p : Pair V)
  | delete (key : String)

/-- The segment after a sequence of Put and Delete calls, or the panic that ended it. -/
def run {V σ : Type} (hash : String → Nat) : segment V σ → List (Op V) → Except Fault (segment V σ)
  | s, [] => Except.ok s
  | s, Op.put p :: ops =>
    match s.Put p with
    | Except.error f => Except.error f
    | Except.ok (s1, _, _) => run hash s1 ops
  | s, Op.delete key :: ops =>
    match s.Delete hash key with
    | Except.error f => Except.error f
    | Except.ok (s1, _) => run hash s1 ops

/-- A segment with an initialised lock in place of the one it has. -/
def segment.withLock {V σ : Type} (s : segment V σ) (l : Locker) : segment V σ :=
  { s with lock := some l }

/-! ## Concrete policies and inputs -/

/-- The rebuild of section 4.3: `n` buckets, every Pair of `old` in bucket `Hash() mod n`. -/
def rehash {V : Type} (n : Nat) (old : List (Bucket V)) : List (Bucket V) :=
  (List.range n).map (fun i => ⟨(allPairs old).filter (fun p => decide (p.Hash % n = i))⟩)

/-- A policy with load factor one: the threshold is the bucket count, the status is 1 when the
total has reached the threshold, and on status 1 the bucket count is doubled. -/
def doublingPolicy {V : Type} : PairRedistributor V Nat where
  state := 0
  UpdateThreshold := fun _ _ bucketsLen => (bucketsLen, Except.ok ())
  CheckBucketStatus := fun st total _ => (st, Except.ok (if st ≤ total then 1 else 0))
  Redistributor := fun st status old =>
    if status = 1 then (st, Except.ok (rehash (max 1 (2 * old.length)) old, true))
    else (st, Except.ok (old, false))

/-- A policy that never resizes. -/
def idlePolicy {V : Type} : PairRedistributor V Nat where
  state := 0
  UpdateThreshold := fun st _ _ => (st + 1, Except.ok ())
  CheckBucketStatus := fun st _ _ => (st, Except.ok 0)
  Redistributor := fun st _ old => (st, Except.ok (old, false))

/-- A policy whose threshold update panics. -/
def faultyPolicy {V : Type} : PairRedistributor V Nat where
  state := 0
  UpdateThreshold := fun st _ _ => (st, Except.error "threshold overflow")
  CheckBucketStatus := fun st _ _ => (st, Except.ok 0)
  Redistributor := fun st _ old => (st, Except.ok (old, false))

/-- A hash function for the examples: the code of the first character of the key. -/
def firstCharHash (key : String) : Nat := (key.get 0).toNat

/-- A Pair built from a key and a value with the hash function `firstCharHash`. -/
def mkPair (key : String) (value : Nat) : Pair Nat := ⟨key, value, firstCharHash key⟩

/-- What an operation returned besides the segment, if it returned. -/
def outcome {α β : Type} (r : Except Fault (α × β)) : Option β :=
  match r with
  | Except.error _ => none
  | Except.ok (_, b) => some b

/-- The segment an operation left behind, if it returned. -/
def stateAfter {α β : Type} (r : Except Fault (α × β)) : Option α :=
  match r with
  | Except.error _ => none
  | Except.ok (a, _) => some a

/-- The panic that ended a computation, if one did. -/
def faultOf {α : Type} (r : Except Fault α) : Option Fault :=
  match r with
  | Except.error f => some f
  | Except.ok _ => none

/-- The example of section 8: a fresh segment with two buckets and the doubling policy, as
`newSegment` builds it. -/
def freshSegment : segment Nat Nat :=
  { buckets := List.replicate 2 NewBucket
    bucketsLen := 2
    pairTotal := 0
    pairRedistributor := doublingPolicy
    lock := none }

/-- The segment of the example with an initialised lock. -/
def exampleSegment : segment Nat Nat := freshSegment.withLock {}

/-- A segment with two buckets that stores the key "a", under the doubling policy. -/
def storedSegment : segment Nat Nat :=
  { buckets := [⟨[]⟩, ⟨[mkPair "a" 1]⟩]
    bucketsLen := 2
    pairTotal := 1
    pairRedistributor := doublingPolicy
    lock := some {} }

/-- A segment with two buckets that stores the key "b", under the policy that panics. -/
def faultySegment : segment Nat Nat :=
  { buckets := [⟨[mkPair "b" 2]⟩, ⟨[]⟩]
    bucketsLen := 2
    pairTotal := 1
    pairRedistributor := faultyPolicy
    lock := some {} }

/-- The calls of a longer example: two insertions, an overwrite, a removal and the removal of a
key that is not stored. -/
def exampleOps : List (Op Nat) :=
  [Op.put (mkPair "a" 1), Op.put (mkPair "b" 2), Op.put (mkPair "a" 5), Op.delete "b",
    Op.delete "zz"]

/-! ## Observation of the policy and reads with explicit state -/

/-- One of the three policy calls made by `redistribute s pairTotal bucketSize` panics, and the
message of the panic is `msg`. -/
def PolicyFaultsWith {V σ : Type} (s : segment V σ) (pairTotal bucketSize : Nat)
    (msg : String) : Prop :=
  let r := s.pairRedistributor
  (∃ st, r.UpdateThreshold r.state pairTotal s.bucketsLen = (st, Except.error msg)) ∨
  (∃ st1 u st, r.UpdateThreshold r.state pairTotal s.bucketsLen = (st1, Except.ok u) ∧
      r.CheckBucketStatus st1 pairTotal bucketSize = (st, Except.error msg)) ∨
  (∃ st1 u st2 status st,
      r.UpdateThreshold r.state pairTotal s.bucketsLen = (st1, Except.ok u) ∧
      r.CheckBucketStatus st1 pairTotal bucketSize = (st2, Except.ok status) ∧
      r.Redistributor st2 status s.buckets = (st, Except.error msg))

/-- A call of a method of the policy, with its arguments. -/
inductive Call (V : Type) where
  | updateThreshold (pairTotal bucketsLen : Nat)
  | checkBucketStatus (pairTotal bucketSize : Nat)
  | redistributor (bucketStatus : BucketStatus) (buckets : List (Bucket V))
  deriving DecidableEq, Repr

/-- The policy `r` under observation: every call is appended, with its arguments, to a log kept
next to the state of `r`, and is forwarded to `r`. -/
def traced {V σ : Type} (r : PairRedistributor V σ) : PairRedistributor V (σ × List (Call V)) where
  state := (r.state, [])
  UpdateThreshold := fun st pairTotal bucketsLen =>
    (((r.UpdateThreshold st.1 pairTotal bucketsLen).1,
        st.2 ++ [Call.updateThreshold pairTotal bucketsLen]),
      (r.UpdateThreshold st.1 pairTotal bucketsLen).2)
  CheckBucketStatus := fun st pairTotal bucketSize =>
    (((r.CheckBucketStatus st.1 pairTotal bucketSize).1,
        st.2 ++ [Call.checkBucketStatus pairTotal bucketSize]),
      (r.CheckBucketStatus st.1 pairTotal bucketSize).2)
  Redistributor := fun st bucketStatus buckets =>
    (((r.Redistributor st.1 bucketStatus buckets).1,
        st.2 ++ [Call.redistributor bucketStatus buckets]),
      (r.Redistributor st.1 bucketStatus buckets).2)

/-- Section 4.1.1 in the words of the specification: the calls of one redistribution check, in
order.  Step 1 is the threshold update with the total and the bucket count, step 2 the status
check with the total and the size of the touched bucket, step 3 the rebuild with the status and
the current bucket array; a step is reached when the steps before it did not fail. -/
def specCalls {V σ : Type} (r : PairRedistributor V σ) (st : σ) (entryCount bucketCount : Nat)
    (affectedBucketSize : Nat) (currentBuckets : List (Bucket V)) : List (Call V) :=
  match r.UpdateThreshold st entryCount bucketCount with
  | (_, Except.error _) => [Call.updateThreshold entryCount bucketCount]
  | (st1, Except.ok _) =>
    match r.CheckBucketStatus st1 entryCount affectedBucketSize with
    | (_, Except.error _) =>
      [Call.updateThreshold entryCount bucketCount,
        Call.checkBucketStatus entryCount affectedBucketSize]
    | (_, Except.ok status) =>
      [Call.updateThreshold entryCount bucketCount,
        Call.checkBucketStatus entryCount affectedBucketSize,
        Call.redistributor status currentBuckets]

/-- The method `GetWithHash` with explicit state passing: the segment it leaves behind and the
Pair found.  The statements of the source are the lock acquisition, the read of the bucket
reference, the release of the lock and the chain scan; none assigns to a field of the segment
or calls the policy. -/
def segment.GetWithHashState {V σ : Type} (s : segment V σ) (key : String) (keyhash : Nat) :
    Except Fault (segment V σ × Option (Pair V)) :=
  match acquire s.lock with
  | Except.error f => Except.error f
  | Except.ok _ =>
    match bucketAt s keyhash with
    | Except.error f => Except.error f
    | Except.ok (_, b) => Except.ok (s, b.Get key)

/-- The method `Get` with explicit state passing. -/
def segment.GetState {V σ : Type} (hash : String → Nat) (s : segment V σ) (key : String) :
    Except Fault (segment V σ × Option (Pair V)) :=
  s.GetWithHashState key (hash key)

/-- The method `Size` with explicit state passing: an atomic load stores nothing. -/
def segment.SizeState {V σ : Type} (s : segment V σ) : segment V σ × Nat :=
  (s, s.pairTotal)

/-- The two-bucket segment that stores "b", observed: its policy is the doubling policy under
observation, with an empty log. -/
def tracedSegment : segment Nat (Nat × List (Call Nat)) :=
  { buckets := [⟨[mkPair "b" 2]⟩, ⟨[]⟩]
    bucketsLen := 2
    pairTotal := 1
    pairRedistributor := (traced doublingPolicy).withState (0, [])
    lock := some {} }

/-! ## Chains -/

theorem overwrite_map_key {V : Type} (p : Pair V) (l : List (Pair V)) :
    (overwrite p l).map Pair.key = l.map Pair.key := by
  induction l with
  | nil => rfl
  | cons q qs ih =>
    simp only [overwrite]
    split
    · simp
    · simp [ih]

theorem overwrite_length {V : Type} (p : Pair V) (l : List (Pair V)) :
    (overwrite p l).length = l.length := by
  have h := congrArg List.length (overwrite_map_key p l)
  simpa using h

theorem mem_overwrite {V : Type} (p : Pair V) (l : List (Pair V)) (q : Pair V)
    (hq : q ∈ overwrite p l) : ∃ q0 ∈ l, q0.key = q.key ∧ q0.Hash = q.Hash := by
  induction l with
  | nil => simp [overwrite] at hq
  | cons a as ih =>
    simp only [overwrite] at hq
    split at hq
    · rcases List.mem_cons.mp hq with h | h
      · exact ⟨a, List.mem_cons_self _ _, by subst h; rfl, by subst h; rfl⟩
      · exact ⟨q, List.mem_cons_of_mem _ h, rfl, rfl⟩
    · rcases List.mem_cons.mp hq with h | h
      · exact ⟨a, List.mem_cons_self _ _, by subst h; rfl, by subst h; rfl⟩
      · obtain ⟨q0, h0, h1⟩ := ih h
        exact ⟨q0, List.mem_cons_of_mem _ h0, h1⟩

theorem mem_overwrite_of_ne {V : Type} (p : Pair V) (l : List (Pair V)) (q : Pair V)
    (hq : q ∈ l) (hne : q.key ≠ p.key) : q ∈ overwrite p l := by
  induction l with
  | nil => simp at hq
  | cons a as ih =>
    simp only [overwrite]
    rcases List.mem_cons.mp hq with h | h
    · subst h
      simp [hne]
    · split
      · exact List.mem_cons_of_mem _ h
      · exact List.mem_cons_of_mem _ (ih h)

theorem find_overwrite {V : Type} (p : Pair V) (l : List (Pair V))
    (h : ∃ q ∈ l, q.key = p.key) :
    ∃ q0 ∈ l, q0.key = p.key ∧
      (overwrite p l).find? (fun q => decide (q.key = p.key)) =
        some { q0 with value := p.value } := by
  induction l with
  | nil => simp at h
  | cons a as ih =>
    by_cases ha : a.key = p.key
    · refine ⟨a, List.mem_cons_self _ _, ha, ?_⟩
      simp [overwrite, ha]
    · obtain ⟨q, hq, hk⟩ := h
      rcases List.mem_cons.mp hq with h1 | h1
      · subst h1
        exact absurd hk ha
      · obtain ⟨q0, h0, hk0, hf⟩ := ih ⟨q, h1, hk⟩
        refine ⟨q0, List.mem_cons_of_mem _ h0, hk0, ?_⟩
        simp [overwrite, ha, hf]

theorem eraseP_key_absent {V : Type} (key : String) (l : List (Pair V))
    (hn : (l.map Pair.key).Nodup) :
    ∀ q ∈ l.eraseP (fun q => decide (q.key = key)), q.key ≠ key := by
  induction l with
  | nil => simp
  | cons a as ih =>
    have hn1 : (as.map Pair.key).Nodup := (List.nodup_cons.mp (by simpa using hn)).2
    have hn2 : a.key ∉ as.map Pair.key := (List.nodup_cons.mp (by simpa using hn)).1
    by_cases ha : a.key = key
    · intro q hq
      simp [List.eraseP_cons, ha] at hq
      intro hk
      exact hn2 (by rw [ha, ← hk]; exact List.mem_map_of_mem _ hq)
    · intro q hq
      simp [List.eraseP_cons, ha] at hq
      rcases hq with h | h
      · subst h
        exact ha
      · exact ih hn1 q h

/-! ## Bucket arrays -/

theorem mem_allPairs {V : Type} (bs : List (Bucket V)) (p : Pair V) :
    p ∈ allPairs bs ↔ ∃ (i : Nat) (b : Bucket V), bs[i]? = some b ∧ p ∈ b.chain := by
  unfold allPairs
  rw [List.mem_flatten]
  constructor
  · rintro ⟨l, hl, hp⟩
    obtain ⟨b, hb, rfl⟩ := List.mem_map.mp hl
    obtain ⟨i, hi⟩ := List.mem_iff_getElem?.mp hb
    exact ⟨i, b, hi, hp⟩
  · rintro ⟨i, b, hi, hp⟩
    exact ⟨b.chain, List.mem_map.mpr ⟨b, List.mem_iff_getElem?.mpr ⟨i, hi⟩, rfl⟩, hp⟩

theorem placed_iff {V : Type} (bs : List (Bucket V)) :
    Placed bs ↔ ∀ (i : Nat) (b : Bucket V), bs[i]? = some b →
      ∀ p ∈ b.chain, p.Hash % bs.length = i := by
  unfold Placed
  constructor
  · intro h i b hb
    exact h (i, b) (List.mk_mem_enum_iff_getElem?.mpr hb)
  · rintro h ⟨i, b⟩ hib
    exact h i b (List.mk_mem_enum_iff_getElem?.mp hib)

theorem allPairs_set_split {V : Type} (bs : List (Bucket V)) (i : Nat) (b : Bucket V)
    (h : bs[i]? = some b) :
    ∃ A C, allPairs bs = A ++ (b.chain ++ C) ∧
      ∀ c : Bucket V, allPairs (bs.set i c) = A ++ (c.chain ++ C) := by
  induction bs generalizing i with
  | nil => simp at h
  | cons x xs ih =>
    cases i with
    | zero =>
      simp at h
      subst h
      exact ⟨[], allPairs xs, by simp [allPairs], by intro c; simp [allPairs]⟩
    | succ j =>
      simp at h
      obtain ⟨A, C, h1, h2⟩ := ih j h
      refine ⟨x.chain ++ A, C, ?_, ?_⟩
      · have : allPairs (x :: xs) = x.chain ++ allPairs xs := by simp [allPairs]
        rw [this, h1, List.append_assoc]
      · intro c
        have : allPairs ((x :: xs).set (j + 1) c) = x.chain ++ allPairs (xs.set j c) := by
          simp [allPairs]
        rw [this, h2 c, List.append_assoc]

theorem set_same {V : Type} (bs : List (Bucket V)) (i : Nat) (b : Bucket V)
    (h : bs[i]? = some b) : bs.set i b = bs := by
  apply List.ext_getElem?
  intro j
  rw [List.getElem?_set]
  by_cases hij : i = j
  · subst hij
    have hlt : i < bs.length := (List.getElem?_eq_some.mp h).1
    simp [hlt, h]
  · simp [hij]

theorem allPairs_length {V : Type} (bs : List (Bucket V)) :
    (allPairs bs).length = (bs.map Bucket.Size).sum := by
  unfold allPairs
  rw [List.length_flatten, List.map_map]
  rfl

theorem lookup_iff {V : Type} (hash : String → Nat) (bs : List (Bucket V))
    (hwf : WellFormed hash bs) (k : String) (b : Bucket V)
    (hb : bs[hash k % bs.length]? = some b) (q : Pair V) :
    b.Get k = some q ↔ q ∈ allPairs bs ∧ q.key = k := by
  unfold Bucket.Get
  constructor
  · intro hg
    have hk : q.key = k := by simpa using List.find?_some hg
    exact ⟨(mem_allPairs bs q).mpr ⟨_, b, hb, List.mem_of_find?_eq_some hg⟩, hk⟩
  · rintro ⟨hq, hk⟩
    obtain ⟨i, c, hi, hqc⟩ := (mem_allPairs bs q).mp hq
    have hpl := (placed_iff bs).mp hwf.placed i c hi q hqc
    have hh := hwf.hashOfKey q hq
    rw [hh, hk] at hpl
    rw [hpl, hi] at hb
    have hcb : c = b := Option.some.inj hb
    subst hcb
    cases hf : c.chain.find? (fun q => decide (q.key = k)) with
    | none =>
      have := List.find?_eq_none.mp hf q hqc
      simp [hk] at this
    | some r =>
      have hrk : r.key = k := by simpa using List.find?_some hf
      have hrm : r ∈ allPairs bs :=
        (mem_allPairs bs r).mpr ⟨_, c, hi, List.mem_of_find?_eq_some hf⟩
      have : r = q := List.inj_on_of_nodup_map hwf.nodupKeys hrm hq (by rw [hrk, hk])
      rw [this]

theorem lookup_none_iff {V : Type} (hash : String → Nat) (bs : List (Bucket V))
    (hwf : WellFormed hash bs) (k : String) (b : Bucket V)
    (hb : bs[hash k % bs.length]? = some b) :
    b.Get k = none ↔ ∀ q ∈ allPairs bs, q.key ≠ k := by
  constructor
  · intro hn q hq hk
    have := (lookup_iff hash bs hwf k b hb q).mpr ⟨hq, hk⟩
    rw [hn] at this
    exact Option.noConfusion this
  · intro h
    cases hg : b.Get k with
    | none => rfl
    | some q =>
      have := (lookup_iff hash bs hwf k b hb q).mp hg
      exact absurd this.2 (h q this.1)

theorem bucket_exists {V : Type} (bs : List (Bucket V)) (h : Nat) (hpos : 0 < bs.length) :
    ∃ b, bs[h % bs.length]? = some b :=
  ⟨bs.get ⟨h % bs.length, Nat.mod_lt _ hpos⟩, List.getElem?_eq_getElem _⟩

theorem acquire_ok (lock : Option Locker) (h : lock.isSome = true) :
    acquire lock = Except.ok () := by
  cases lock with
  | none => simp at h
  | some l => rfl

theorem bucketAt_eq {V σ : Type} (s : segment V σ) (h : Nat) (b : Bucket V)
    (hlen : s.bucketsLen = s.buckets.length)
    (hb : s.buckets[h % s.buckets.length]? = some b) :
    bucketAt s h = Except.ok (h % s.buckets.length, b) := by
  have hlt : h % s.buckets.length < s.buckets.length := (List.getElem?_eq_some.mp hb).1
  have hpos : s.buckets.length ≠ 0 := by omega
  unfold bucketAt
  rw [hlen, if_neg hpos, hb]

theorem GetWithHash_eq {V σ : Type} (s : segment V σ) (key : String) (h : Nat) (b : Bucket V)
    (hl : s.lock.isSome = true) (hlen : s.bucketsLen = s.buckets.length)
    (hb : s.buckets[h % s.buckets.length]? = some b) :
    s.GetWithHash key h = Except.ok (b.Get key) := by
  unfold segment.GetWithHash
  rw [acquire_ok _ hl, bucketAt_eq s h b hlen hb]

theorem Get_some_iff {V σ : Type} (hash : String → Nat) (s : segment V σ) (hinv : s.Inv hash)
    (k : String) (q : Pair V) :
    s.Get hash k = Except.ok (some q) ↔ q ∈ allPairs s.buckets ∧ q.key = k := by
  obtain ⟨b, hb⟩ := bucket_exists s.buckets (hash k) hinv.wf.nonempty
  unfold segment.Get
  rw [GetWithHash_eq s k (hash k) b hinv.locked hinv.len hb]
  rw [← lookup_iff hash s.buckets hinv.wf k b hb q]
  constructor
  · intro h
    exact Except.ok.inj h
  · intro h
    rw [h]

theorem Get_none_iff {V σ : Type} (hash : String → Nat) (s : segment V σ) (hinv : s.Inv hash)
    (k : String) :
    s.Get hash k = Except.ok none ↔ ∀ q ∈ allPairs s.buckets, q.key ≠ k := by
  obtain ⟨b, hb⟩ := bucket_exists s.buckets (hash k) hinv.wf.nonempty
  unfold segment.Get
  rw [GetWithHash_eq s k (hash k) b hinv.locked hinv.len hb]
  rw [← lookup_none_iff hash s.buckets hinv.wf k b hb]
  constructor
  · intro h
    exact Except.ok.inj h
  · intro h
    rw [h]

/-! ## Well-formedness under the mutation of one bucket -/

theorem wellFormed_set {V : Type} (hash : String → Nat) (bs : List (Bucket V))
    (hwf : WellFormed hash bs) (i : Nat) (c : Bucket V)
    (hc : ∀ q ∈ c.chain, q.Hash % bs.length = i ∧ q.Hash = hash q.key)
    (hnd : ((allPairs (bs.set i c)).map Pair.key).Nodup) :
    WellFormed hash (bs.set i c) := by
  refine ⟨by rw [List.length_set]; exact hwf.nonempty, ?_, ?_, hnd⟩
  · rw [placed_iff]
    intro j d hj p hp
    rw [List.length_set]
    rw [List.getElem?_set] at hj
    by_cases hij : i = j
    · rw [if_pos hij] at hj
      split at hj
      · have : c = d := Option.some.inj hj
        subst this
        rw [← hij]
        exact (hc p hp).1
      · exact Option.noConfusion hj
    · rw [if_neg hij] at hj
      exact (placed_iff bs).mp hwf.placed j d hj p hp
  · intro p hp
    obtain ⟨j, d, hj, hpd⟩ := (mem_allPairs _ p).mp hp
    rw [List.getElem?_set] at hj
    by_cases hij : i = j
    · rw [if_pos hij] at hj
      split at hj
      · have : c = d := Option.some.inj hj
        subst this
        exact (hc p hpd).2
      · exact Option.noConfusion hj
    · rw [if_neg hij] at hj
      exact hwf.hashOfKey p ((mem_allPairs bs p).mpr ⟨j, d, hj, hpd⟩)

theorem perm_insert {V : Type} (bs : List (Bucket V)) (i : Nat) (b : Bucket V) (p : Pair V)
    (hb : bs[i]? = some b) :
    (allPairs (bs.set i ⟨b.chain ++ [p]⟩)).Perm (p :: allPairs bs) := by
  obtain ⟨A, C, h1, h2⟩ := allPairs_set_split bs i b hb
  rw [h1, h2]
  have : A ++ ((b.chain ++ [p]) ++ C) = (A ++ b.chain) ++ p :: C := by simp
  rw [this]
  have h3 : A ++ (b.chain ++ C) = (A ++ b.chain) ++ C := by simp
  rw [h3]
  exact List.perm_middle

theorem keys_overwrite {V : Type} (bs : List (Bucket V)) (i : Nat) (b : Bucket V) (p : Pair V)
    (hb : bs[i]? = some b) :
    (allPairs (bs.set i ⟨overwrite p b.chain⟩)).map Pair.key = (allPairs bs).map Pair.key := by
  obtain ⟨A, C, h1, h2⟩ := allPairs_set_split bs i b hb
  rw [h1, h2]
  simp [overwrite_map_key]

theorem sublist_delete {V : Type} (bs : List (Bucket V)) (i : Nat) (b : Bucket V) (key : String)
    (hb : bs[i]? = some b) :
    (allPairs (bs.set i ⟨b.chain.eraseP (fun q => decide (q.key = key))⟩)).Sublist
      (allPairs bs) := by
  obtain ⟨A, C, h1, h2⟩ := allPairs_set_split bs i b hb
  rw [h1, h2]
  exact (List.Sublist.refl A).append ((List.eraseP_sublist _).append (List.Sublist.refl C))

theorem wellFormed_of_rehash {V : Type} (hash : String → Nat) (old new : List (Bucket V))
    (hwf : WellFormed hash old) (hr : IsRehash old new) : WellFormed hash new := by
  obtain ⟨hpos, hperm, hpl⟩ := hr
  refine ⟨hpos, hpl, ?_, ?_⟩
  · intro p hp
    exact hwf.hashOfKey p (hperm.mem_iff.mp hp)
  · exact ((hperm.map Pair.key).nodup_iff).mpr hwf.nodupKeys

/-! ## The redistribution step -/

theorem redistribute_frame {V σ : Type} (s : segment V σ) (t z : Nat) :
    (s.redistribute t z).1.lock = s.lock ∧
    (s.redistribute t z).1.pairTotal = s.pairTotal ∧
    (s.redistribute t z).1.pairRedistributor.Redistributor = s.pairRedistributor.Redistributor ∧
    (((s.redistribute t z).1.buckets = s.buckets ∧
        (s.redistribute t z).1.bucketsLen = s.bucketsLen) ∨
      (∃ st status st1 new,
        s.pairRedistributor.Redistributor st status s.buckets = (st1, Except.ok (new, true)) ∧
        (s.redistribute t z).1.buckets = new ∧
        (s.redistribute t z).1.bucketsLen = new.length)) := by
  unfold segment.redistribute
  rcases h1 : s.pairRedistributor.UpdateThreshold s.pairRedistributor.state t s.bucketsLen with
    ⟨st1, msg | u⟩
  · simp [h1, PairRedistributor.withState]
  · rcases h2 : s.pairRedistributor.CheckBucketStatus st1 t z with ⟨st2, msg | status⟩
    · simp [h1, h2, PairRedistributor.withState]
    · rcases h3 : s.pairRedistributor.Redistributor st2 status s.buckets with
        ⟨st3, msg | ⟨new, changed⟩⟩
      · simp [h1, h2, h3, PairRedistributor.withState]
      · cases changed with
        | false => simp [h1, h2, h3, PairRedistributor.withState]
        | true =>
          simp only [h1, h2, h3, if_true, PairRedistributor.withState, true_and]
          right
          exact ⟨st2, status, st3, new, h3, rfl, rfl⟩

theorem policyContract_congr {V σ : Type} (r1 r2 : PairRedistributor V σ)
    (h : r2.Redistributor = r1.Redistributor) (hc : PolicyContract r1) : PolicyContract r2 := by
  intro st status old st1 new hr
  rw [h] at hr
  exact hc st status old st1 new hr

theorem redistribute_inv {V σ : Type} (hash : String → Nat) (s : segment V σ) (t z : Nat)
    (hc : PolicyContract s.pairRedistributor) (hinv : s.Inv hash) :
    (s.redistribute t z).1.Inv hash ∧
    PolicyContract (s.redistribute t z).1.pairRedistributor ∧
    (allPairs (s.redistribute t z).1.buckets).Perm (allPairs s.buckets) ∧
    (s.redistribute t z).1.pairTotal = s.pairTotal := by
  obtain ⟨hl, ht, hr, hb⟩ := redistribute_frame s t z
  refine ⟨?_, policyContract_congr _ _ hr hc, ?_, ht⟩
  · rcases hb with ⟨h1, h2⟩ | ⟨st, status, st1, new, h0, h1, h2⟩
    · exact ⟨by rw [hl]; exact hinv.locked, by rw [h1, h2]; exact hinv.len,
        by rw [h1]; exact hinv.wf⟩
    · exact ⟨by rw [hl]; exact hinv.locked, by rw [h1, h2],
        by rw [h1]; exact wellFormed_of_rehash hash _ _ hinv.wf (hc _ _ _ _ _ h0)⟩
  · rcases hb with ⟨h1, _⟩ | ⟨st, status, st1, new, h0, h1, _⟩
    · rw [h1]
    · rw [h1]
      exact (hc _ _ _ _ _ h0).2.1

/-! ## Put and Delete, unfolded -/

theorem Put_insert_eq {V σ : Type} (s : segment V σ) (p : Pair V) (b : Bucket V)
    (hl : s.lock.isSome = true) (hlen : s.bucketsLen = s.buckets.length)
    (hb : s.buckets[p.Hash % s.buckets.length]? = some b)
    (hnew : ∀ q ∈ b.chain, q.key ≠ p.key) :
    s.Put p = Except.ok
      (((s.putMid (p.Hash % s.buckets.length) ⟨b.chain ++ [p]⟩).redistribute
          ((s.pairTotal + 1) % 2 ^ 64) (b.chain.length + 1)).1, true, none) := by
  have hany : b.chain.any (fun q => decide (q.key = p.key)) = false := by
    rw [Bool.eq_false_iff]
    intro h
    obtain ⟨q, hq, hk⟩ := List.any_eq_true.mp h
    exact hnew q hq (by simpa using hk)
  unfold segment.Put
  rw [acquire_ok _ hl, bucketAt_eq s p.Hash b hlen hb]
  simp [Bucket.Put, hany, Bucket.Size, segment.putMid]

theorem Put_overwrite_eq {V σ : Type} (s : segment V σ) (p : Pair V) (b : Bucket V)
    (hl : s.lock.isSome = true) (hlen : s.bucketsLen = s.buckets.length)
    (hb : s.buckets[p.Hash % s.buckets.length]? = some b)
    (hold : ∃ q ∈ b.chain, q.key = p.key) :
    s.Put p = Except.ok
      ({ s with buckets := s.buckets.set (p.Hash % s.buckets.length) ⟨overwrite p b.chain⟩ },
        false, none) := by
  have hany : b.chain.any (fun q => decide (q.key = p.key)) = true := by
    obtain ⟨q, hq, hk⟩ := hold
    exact List.any_eq_true.mpr ⟨q, hq, by simpa using hk⟩
  unfold segment.Put
  rw [acquire_ok _ hl, bucketAt_eq s p.Hash b hlen hb]
  simp [Bucket.Put, hany]

theorem Delete_remove_eq {V σ : Type} (hash : String → Nat) (s : segment V σ) (key : String)
    (b : Bucket V)
    (hl : s.lock.isSome = true) (hlen : s.bucketsLen = s.buckets.length)
    (hb : s.buckets[hash key % s.buckets.length]? = some b)
    (hold : ∃ q ∈ b.chain, q.key = key) :
    s.Delete hash key = Except.ok
      (((s.deleteMid (hash key % s.buckets.length)
            ⟨b.chain.eraseP (fun q => decide (q.key = key))⟩).redistribute
          ((s.pairTotal + (2 ^ 64 - 1)) % 2 ^ 64) (b.chain.length - 1)).1, true) := by
  have hany : b.chain.any (fun q => decide (q.key = key)) = true := by
    obtain ⟨q, hq, hk⟩ := hold
    exact List.any_eq_true.mpr ⟨q, hq, by simpa using hk⟩
  unfold segment.Delete
  rw [acquire_ok _ hl, bucketAt_eq s (hash key) b hlen hb]
  simp [Bucket.Delete, hany, Bucket.Size, segment.deleteMid, List.length_eraseP]

theorem Delete_absent_eq {V σ : Type} (hash : String → Nat) (s : segment V σ) (key : String)
    (b : Bucket V)
    (hl : s.lock.isSome = true) (hlen : s.bucketsLen = s.buckets.length)
    (hb : s.buckets[hash key % s.buckets.length]? = some b)
    (hnew : ∀ q ∈ b.chain, q.key ≠ key) :
    s.Delete hash key = Except.ok (s, false) := by
  have hany : b.chain.any (fun q => decide (q.key = key)) = false := by
    rw [Bool.eq_false_iff]
    intro h
    obtain ⟨q, hq, hk⟩ := List.any_eq_true.mp h
    exact hnew q hq (by simpa using hk)
  have her : b.chain.eraseP (fun q => decide (q.key = key)) = b.chain := by
    apply List.eraseP_of_forall_not
    intro q hq
    simpa using hnew q hq
  unfold segment.Delete
  rw [acquire_ok _ hl, bucketAt_eq s (hash key) b hlen hb]
  simp [Bucket.Delete, hany, her, set_same s.buckets _ b hb]

/-! ## What Put and Delete do to a well-formed segment -/

theorem putMid_inv {V σ : Type} (hash : String → Nat) (s : segment V σ) (p : Pair V)
    (b : Bucket V) (hinv : s.Inv hash) (hp : p.Hash = hash p.key)
    (hb : s.buckets[p.Hash % s.buckets.length]? = some b)
    (hnew : ∀ q ∈ allPairs s.buckets, q.key ≠ p.key) :
    (s.putMid (p.Hash % s.buckets.length) ⟨b.chain ++ [p]⟩).Inv hash := by
  refine ⟨hinv.locked, ?_, ?_⟩
  · show s.bucketsLen = (s.buckets.set _ _).length
    rw [List.length_set]
    exact hinv.len
  · show WellFormed hash (s.buckets.set _ _)
    apply wellFormed_set hash s.buckets hinv.wf
    · intro q hq
      rcases List.mem_append.mp hq with h | h
      · exact ⟨(placed_iff _).mp hinv.wf.placed _ b hb q h,
          hinv.wf.hashOfKey q ((mem_allPairs _ q).mpr ⟨_, b, hb, h⟩)⟩
      · have : q = p := by simpa using h
        subst this
        exact ⟨rfl, hp⟩
    · have hperm := (perm_insert s.buckets _ b p hb).map Pair.key
      rw [hperm.nodup_iff, List.map_cons, List.nodup_cons]
      refine ⟨?_, hinv.wf.nodupKeys⟩
      intro hmem
      obtain ⟨q, hq, hk⟩ := List.mem_map.mp hmem
      exact hnew q hq hk

theorem Put_spec {V σ : Type} (hash : String → Nat) (s : segment V σ) (p : Pair V)
    (hinv : s.Inv hash) (hc : PolicyContract s.pairRedistributor) (hp : p.Hash = hash p.key) :
    ∃ s1 ins, s.Put p = Except.ok (s1, ins, none) ∧ s1.Inv hash ∧
      PolicyContract s1.pairRedistributor ∧
      (ins = false ↔ ∃ q ∈ allPairs s.buckets, q.key = p.key) ∧
      s1.pairTotal = (if ins then (s.pairTotal + 1) % 2 ^ 64 else s.pairTotal) ∧
      (allPairs s1.buckets).length =
        (if ins then (allPairs s.buckets).length + 1 else (allPairs s.buckets).length) ∧
      (∃ q ∈ allPairs s1.buckets, q.key = p.key ∧ q.value = p.value) ∧
      (∀ q ∈ allPairs s.buckets, q.key ≠ p.key → q ∈ allPairs s1.buckets) := by
  obtain ⟨b, hb⟩ := bucket_exists s.buckets p.Hash hinv.wf.nonempty
  have hbk : s.buckets[hash p.key % s.buckets.length]? = some b := by rw [← hp]; exact hb
  obtain ⟨A, C, hA, hS⟩ := allPairs_set_split s.buckets _ b hb
  by_cases hold : ∃ q ∈ b.chain, q.key = p.key
  · -- overwrite
    refine ⟨_, false, Put_overwrite_eq s p b hinv.locked hinv.len hb hold, ?_, hc, ?_, rfl,
      ?_, ?_, ?_⟩
    · refine ⟨hinv.locked, ?_, ?_⟩
      · show s.bucketsLen = (s.buckets.set _ _).length
        rw [List.length_set]
        exact hinv.len
      · show WellFormed hash (s.buckets.set _ _)
        apply wellFormed_set hash s.buckets hinv.wf
        · intro q hq
          obtain ⟨q0, h0, hk, hh⟩ := mem_overwrite p b.chain q hq
          have h1 := (placed_iff _).mp hinv.wf.placed _ b hb q0 h0
          have h2 := hinv.wf.hashOfKey q0 ((mem_allPairs _ q0).mpr ⟨_, b, hb, h0⟩)
          rw [hh, hk] at h2
          rw [hh] at h1
          exact ⟨h1, h2⟩
        · rw [keys_overwrite s.buckets _ b p hb]
          exact hinv.wf.nodupKeys
    · simp only [true_iff]
      obtain ⟨q, hq, hk⟩ := hold
      exact ⟨q, (mem_allPairs _ q).mpr ⟨_, b, hb, hq⟩, hk⟩
    · have h := congrArg List.length (keys_overwrite s.buckets _ b p hb)
      simpa using h
    · obtain ⟨q0, h0, hk0, hf⟩ := find_overwrite p b.chain hold
      refine ⟨{ q0 with value := p.value }, ?_, hk0, rfl⟩
      show _ ∈ allPairs (s.buckets.set _ _)
      rw [hS]
      exact List.mem_append_right _ (List.mem_append_left _ (List.mem_of_find?_eq_some hf))
    · intro q hq hne
      show _ ∈ allPairs (s.buckets.set _ _)
      rw [hS]
      rw [hA] at hq
      rcases List.mem_append.mp hq with h | h
      · exact List.mem_append_left _ h
      · rcases List.mem_append.mp h with h | h
        · exact List.mem_append_right _ (List.mem_append_left _ (mem_overwrite_of_ne p _ q h hne))
        · exact List.mem_append_right _ (List.mem_append_right _ h)
  · -- insertion
    have hnewb : ∀ q ∈ b.chain, q.key ≠ p.key := fun q hq hk => hold ⟨q, hq, hk⟩
    have hnew : ∀ q ∈ allPairs s.buckets, q.key ≠ p.key := by
      intro q hq hk
      have hg := (lookup_iff hash s.buckets hinv.wf p.key b hbk q).mpr ⟨hq, hk⟩
      exact hnewb q (List.mem_of_find?_eq_some hg) hk
    have hmid := putMid_inv hash s p b hinv hp hb hnew
    obtain ⟨hi1, hc1, hperm, ht⟩ := redistribute_inv hash
      (s.putMid (p.Hash % s.buckets.length) ⟨b.chain ++ [p]⟩)
      ((s.pairTotal + 1) % 2 ^ 64) (b.chain.length + 1) hc hmid
    have hperm2 := hperm.trans (perm_insert s.buckets _ b p hb)
    refine ⟨_, true, Put_insert_eq s p b hinv.locked hinv.len hb hnewb, hi1, hc1, ?_, ?_, ?_,
      ?_, ?_⟩
    · constructor
      · intro h
        exact Bool.noConfusion h
      · rintro ⟨q, hq, hk⟩
        exact absurd hk (hnew q hq)
    · rw [ht]
      simp only [segment.putMid, if_true]
    · rw [hperm2.length_eq]
      simp only [List.length_cons, if_true]
    · exact ⟨p, hperm2.mem_iff.mpr (List.mem_cons_self _ _), rfl, rfl⟩
    · intro q hq _
      exact hperm2.mem_iff.mpr (List.mem_cons_of_mem _ hq)

theorem Delete_spec {V σ : Type} (hash : String → Nat) (s : segment V σ) (key : String)
    (hinv : s.Inv hash) (hc : PolicyContract s.pairRedistributor) :
    ∃ s1 rem, s.Delete hash key = Except.ok (s1, rem) ∧ s1.Inv hash ∧
      PolicyContract s1.pairRedistributor ∧
      (rem = true ↔ ∃ q ∈ allPairs s.buckets, q.key = key) ∧
      s1.pairTotal = (if rem then (s.pairTotal + (2 ^ 64 - 1)) % 2 ^ 64 else s.pairTotal) ∧
      (allPairs s1.buckets).length =
        (if rem then (allPairs s.buckets).length - 1 else (allPairs s.buckets).length) ∧
      (∀ q ∈ allPairs s1.buckets, q.key ≠ key) ∧
      (∀ q ∈ allPairs s.buckets, q.key ≠ key → q ∈ allPairs s1.buckets) := by
  obtain ⟨b, hb⟩ := bucket_exists s.buckets (hash key) hinv.wf.nonempty
  obtain ⟨A, C, hA, hS⟩ := allPairs_set_split s.buckets _ b hb
  by_cases hold : ∃ q ∈ b.chain, q.key = key
  · -- removal
    have hsub := sublist_delete s.buckets _ b key hb
    have hmid : (s.deleteMid (hash key % s.buckets.length)
        ⟨b.chain.eraseP (fun q => decide (q.key = key))⟩).Inv hash := by
      refine ⟨hinv.locked, ?_, ?_⟩
      · show s.bucketsLen = (s.buckets.set _ _).length
        rw [List.length_set]
        exact hinv.len
      · show WellFormed hash (s.buckets.set _ _)
        apply wellFormed_set hash s.buckets hinv.wf
        · intro q hq
          have h0 : q ∈ b.chain := (List.eraseP_sublist _).subset hq
          exact ⟨(placed_iff _).mp hinv.wf.placed _ b hb q h0,
            hinv.wf.hashOfKey q ((mem_allPairs _ q).mpr ⟨_, b, hb, h0⟩)⟩
        · exact (hsub.map Pair.key).nodup hinv.wf.nodupKeys
    obtain ⟨hi1, hc1, hperm, ht⟩ := redistribute_inv hash
      (s.deleteMid (hash key % s.buckets.length)
        ⟨b.chain.eraseP (fun q => decide (q.key = key))⟩)
      ((s.pairTotal + (2 ^ 64 - 1)) % 2 ^ 64) (b.chain.length - 1) hc hmid
    have hbn : (b.chain.map Pair.key).Nodup := by
      have h := hinv.wf.nodupKeys
      rw [hA] at h
      simp only [List.map_append] at h
      exact (List.nodup_append.mp (List.nodup_append.mp h).2.1).1
    have hany : b.chain.any (fun q => decide (q.key = key)) = true := by
      obtain ⟨q, hq, hk⟩ := hold
      exact List.any_eq_true.mpr ⟨q, hq, by simpa using hk⟩
    refine ⟨_, true, Delete_remove_eq hash s key b hinv.locked hinv.len hb hold, hi1, hc1, ?_,
      ?_, ?_, ?_, ?_⟩
    · simp only [true_iff]
      obtain ⟨q, hq, hk⟩ := hold
      exact ⟨q, (mem_allPairs _ q).mpr ⟨_, b, hb, hq⟩, hk⟩
    · rw [ht]
      simp only [segment.deleteMid, if_true]
    · rw [hperm.length_eq]
      show (allPairs (s.buckets.set _ _)).length = _
      rw [hS, hA]
      simp only [List.length_append, List.length_eraseP, hany, if_true]
      have : 0 < b.chain.length := by
        obtain ⟨q, hq, _⟩ := hold
        exact List.length_pos_of_mem hq
      omega
    · intro q hq hk
      have hq1 : q ∈ allPairs (s.buckets.set (hash key % s.buckets.length)
          ⟨b.chain.eraseP (fun q => decide (q.key = key))⟩) := hperm.mem_iff.mp hq
      have hlt : hash key % s.buckets.length < s.buckets.length :=
        (List.getElem?_eq_some.mp hb).1
      have hb1 : (s.buckets.set (hash key % s.buckets.length)
          ⟨b.chain.eraseP (fun q => decide (q.key = key))⟩)[hash key %
            (s.buckets.set (hash key % s.buckets.length)
              ⟨b.chain.eraseP (fun q => decide (q.key = key))⟩).length]? =
          some ⟨b.chain.eraseP (fun q => decide (q.key = key))⟩ := by
        rw [List.length_set]
        exact List.getElem?_set_self hlt
      have hg := (lookup_iff hash _ hmid.wf key _ hb1 q).mpr ⟨hq1, hk⟩
      exact eraseP_key_absent key b.chain hbn q (List.mem_of_find?_eq_some hg) hk
    · intro q hq hne
      apply hperm.mem_iff.mpr
      show _ ∈ allPairs (s.buckets.set _ _)
      rw [hS]
      rw [hA] at hq
      rcases List.mem_append.mp hq with h | h
      · exact List.mem_append_left _ h
      · rcases List.mem_append.mp h with h | h
        · refine List.mem_append_right _ (List.mem_append_left _ ?_)
          exact (List.mem_eraseP_of_neg (by simpa using hne)).mpr h
        · exact List.mem_append_right _ (List.mem_append_right _ h)
  · -- absent
    have hnewb : ∀ q ∈ b.chain, q.key ≠ key := fun q hq hk => hold ⟨q, hq, hk⟩
    have hnew : ∀ q ∈ allPairs s.buckets, q.key ≠ key := by
      intro q hq hk
      have hg := (lookup_iff hash s.buckets hinv.wf key b hb q).mpr ⟨hq, hk⟩
      exact hnewb q (List.mem_of_find?_eq_some hg) hk
    refine ⟨s, false, Delete_absent_eq hash s key b hinv.locked hinv.len hb hnewb, hinv, hc, ?_,
      rfl, rfl, hnew, fun q hq _ => hq⟩
    constructor
    · intro h
      exact Bool.noConfusion h
    · rintro ⟨q, hq, hk⟩
      exact absurd hk (hnew q hq)

/-! ## The rebuild -/

theorem sum_indicator (j c n : Nat) :
    ((List.range n).map (fun i => if j = i then c else 0)).sum = if j < n then c else 0 := by
  induction n with
  | zero => simp
  | succ n ih =>
    rw [List.range_succ, List.map_append, List.sum_append, ih]
    by_cases h1 : j < n
    · have h2 : j ≠ n := by omega
      have h3 : j < n + 1 := by omega
      simp [h1, h2, h3]
    · by_cases h2 : j = n
      · simp [h2]
      · have h3 : ¬ j < n + 1 := by omega
        simp [h1, h2, h3]

theorem rehash_length {V : Type} (n : Nat) (old : List (Bucket V)) :
    (rehash n old).length = n := by
  simp [rehash]

theorem rehash_perm {V : Type} [DecidableEq V] (n : Nat) (hn : 0 < n) (old : List (Bucket V)) :
    (allPairs (rehash n old)).Perm (allPairs old) := by
  rw [List.perm_iff_count]
  intro a
  have hfun : ∀ i : Nat,
      List.count a ((allPairs old).filter (fun p => decide (p.Hash % n = i))) =
        if a.Hash % n = i then List.count a (allPairs old) else 0 := by
    intro i
    by_cases h : a.Hash % n = i
    · rw [if_pos h]
      exact List.count_filter (by simpa using h)
    · rw [if_neg h]
      apply List.count_eq_zero.mpr
      intro hmem
      have := (List.mem_filter.mp hmem).2
      exact h (by simpa using this)
  have hmap : (List.map (List.count a) (List.map Bucket.chain (rehash n old))) =
      (List.range n).map (fun i => if a.Hash % n = i then List.count a (allPairs old) else 0) := by
    unfold rehash
    rw [List.map_map, List.map_map]
    apply List.map_congr_left
    intro i _
    exact hfun i
  show List.count a (List.flatten (List.map Bucket.chain (rehash n old))) = _
  rw [List.count_flatten, hmap, sum_indicator, if_pos (Nat.mod_lt _ hn)]

theorem rehash_placed {V : Type} (n : Nat) (old : List (Bucket V)) : Placed (rehash n old) := by
  rw [placed_iff]
  intro i b hb p hp
  rw [rehash_length]
  unfold rehash at hb
  rw [List.getElem?_map] at hb
  cases hr : (List.range n)[i]? with
  | none => rw [hr] at hb; exact Option.noConfusion hb
  | some j =>
    rw [hr] at hb
    have hj : j = i := by
      have := List.getElem?_eq_some.mp hr
      obtain ⟨h1, h2⟩ := this
      simpa using h2.symm
    subst hj
    have hbe : b = ⟨(allPairs old).filter (fun p => decide (p.Hash % n = j))⟩ :=
      (Option.some.inj hb).symm
    rw [hbe] at hp
    simpa using (List.mem_filter.mp hp).2

theorem rehash_isRehash {V : Type} [DecidableEq V] (n : Nat) (hn : 0 < n)
    (old : List (Bucket V)) : IsRehash old (rehash n old) :=
  ⟨by rw [rehash_length]; exact hn, rehash_perm n hn old, rehash_placed n old⟩

theorem doublingPolicy_contract {V : Type} [DecidableEq V] :
    PolicyContract (doublingPolicy : PairRedistributor V Nat) := by
  intro st status old st1 new h
  unfold doublingPolicy at h
  simp only at h
  split at h
  · have h2 := (Prod.mk.inj h).2
    have h3 := (Prod.mk.inj (Except.ok.inj h2)).1
    rw [← h3]
    exact rehash_isRehash _ (by omega) old
  · have h2 := (Prod.mk.inj h).2
    have h3 := (Prod.mk.inj (Except.ok.inj h2)).2
    exact Bool.noConfusion h3

theorem idlePolicy_contract {V : Type} : PolicyContract (idlePolicy : PairRedistributor V Nat) := by
  intro st status old st1 new h
  unfold idlePolicy at h
  have h2 := (Prod.mk.inj h).2
  have h3 := (Prod.mk.inj (Except.ok.inj h2)).2
  exact Bool.noConfusion h3

theorem faultyPolicy_contract {V : Type} :
    PolicyContract (faultyPolicy : PairRedistributor V Nat) := by
  intro st status old st1 new h
  unfold faultyPolicy at h
  have h2 := (Prod.mk.inj h).2
  have h3 := (Prod.mk.inj (Except.ok.inj h2)).2
  exact Bool.noConfusion h3

/-! ## The fresh segment -/

theorem allPairs_replicate {V : Type} (n : Nat) :
    allPairs (List.replicate n (NewBucket : Bucket V)) = [] := by
  induction n with
  | zero => rfl
  | succ n ih =>
    have : allPairs (List.replicate (n + 1) (NewBucket : Bucket V)) =
        (NewBucket : Bucket V).chain ++ allPairs (List.replicate n NewBucket) := by
      simp [allPairs, List.replicate_succ]
    rw [this, ih]
    rfl

theorem wellFormed_replicate {V : Type} (hash : String → Nat) (n : Nat) (hn : 0 < n) :
    WellFormed hash (List.replicate n (NewBucket : Bucket V)) := by
  refine ⟨by simpa using hn, ?_, ?_, ?_⟩
  · rw [placed_iff]
    intro i b hb p hp
    have hmem : p ∈ allPairs (List.replicate n (NewBucket : Bucket V)) :=
      (mem_allPairs _ p).mpr ⟨i, b, hb, hp⟩
    rw [allPairs_replicate] at hmem
    simp at hmem
  · intro p hp
    rw [allPairs_replicate] at hp
    simp at hp
  · rw [allPairs_replicate]
    simp

theorem newSegment_ok {V σ : Type} (D M : Nat) (dflt : Nat → PairRedistributor V σ)
    (n : Int) (r : Option (PairRedistributor V σ)) (s0 : segment V σ)
    (h0 : newSegment D M dflt n r = Except.ok s0) :
    s0.buckets = List.replicate (if n ≤ 0 then D else n.toNat) NewBucket ∧
      s0.bucketsLen = (if n ≤ 0 then D else n.toNat) ∧
      s0.pairTotal = 0 ∧
      s0.lock = none ∧
      (if n ≤ 0 then D else n.toNat) ≤ M := by
  unfold newSegment at h0
  simp only at h0
  by_cases hlt : M < (if n ≤ 0 then D else n.toNat)
  · rw [if_pos hlt] at h0
    exact Except.noConfusion h0
  · rw [if_neg hlt] at h0
    have h1 := Except.ok.inj h0
    subst h1
    exact ⟨rfl, rfl, rfl, rfl, Nat.le_of_not_lt hlt⟩

theorem newSegment_returns {V σ : Type} (D M : Nat) (dflt : Nat → PairRedistributor V σ)
    (n : Int) (r : Option (PairRedistributor V σ))
    (hle : (if n ≤ 0 then D else n.toNat) ≤ M) :
    ∃ s0, newSegment D M dflt n r = Except.ok s0 := by
  unfold newSegment
  simp only
  rw [if_neg (Nat.not_lt.mpr hle)]
  exact ⟨_, rfl⟩

theorem newSegment_panics {V σ : Type} (D M : Nat) (dflt : Nat → PairRedistributor V σ)
    (n : Int) (r : Option (PairRedistributor V σ))
    (hlt : M < (if n ≤ 0 then D else n.toNat)) :
    newSegment D M dflt n r = Except.error Fault.makesliceLenOutOfRange := by
  unfold newSegment
  simp only
  rw [if_pos hlt]

theorem newSegment_fresh :
    newSegment 16 17592186044416 (fun _ => idlePolicy) 2 (some doublingPolicy) =
      Except.ok freshSegment := rfl

theorem newSegment_inv {V σ : Type} (hash : String → Nat) (D M : Nat)
    (dflt : Nat → PairRedistributor V σ) (n : Int) (r : Option (PairRedistributor V σ))
    (s0 : segment V σ) (h0 : newSegment D M dflt n r = Except.ok s0)
    (l : Locker) (hD : n ≤ 0 → 0 < D) :
    (s0.withLock l).Inv hash := by
  obtain ⟨hb, hl, _, _, _⟩ := newSegment_ok D M dflt n r s0 h0
  have hpos : 0 < (if n ≤ 0 then D else n.toNat) := by
    split
    · exact hD (by assumption)
    · omega
  refine ⟨rfl, ?_, ?_⟩
  · show s0.bucketsLen = s0.buckets.length
    rw [hb, hl, List.length_replicate]
  · show WellFormed hash s0.buckets
    rw [hb]
    exact wellFormed_replicate hash _ hpos

/-! ## Sequences of calls -/

theorem run_spec {V σ : Type} (hash : String → Nat) (ops : List (Op V)) :
    ∀ s : segment V σ, s.Inv hash → PolicyContract s.pairRedistributor →
      (∀ p, Op.put p ∈ ops → p.Hash = hash p.key) →
      s.pairTotal = (allPairs s.buckets).length →
      s.pairTotal + ops.length < 2 ^ 64 →
      ∃ s1, run hash s ops = Except.ok s1 ∧ s1.Inv hash ∧
        s1.pairTotal = (allPairs s1.buckets).length := by
  induction ops with
  | nil =>
    intro s hinv _ _ ht _
    exact ⟨s, rfl, hinv, ht⟩
  | cons op ops ih =>
    intro s hinv hc hp ht hlt
    simp only [List.length_cons] at hlt
    cases op with
    | put p =>
      obtain ⟨s1, ins, he, hi1, hc1, _, ht1, hl1, _, _⟩ :=
        Put_spec hash s p hinv hc (hp p (List.mem_cons_self _ _))
      have htot : s1.pairTotal = (allPairs s1.buckets).length := by
        rw [ht1, hl1]
        cases ins with
        | false => simpa using ht
        | true =>
          simp only [if_true]
          rw [Nat.mod_eq_of_lt (by omega), ht]
      have hle : s1.pairTotal ≤ s.pairTotal + 1 := by
        rw [htot, hl1, ht]
        split <;> omega
      obtain ⟨s2, hr, hi2, ht2⟩ := ih s1 hi1 hc1
        (fun q hq => hp q (List.mem_cons_of_mem _ hq)) htot (by omega)
      refine ⟨s2, ?_, hi2, ht2⟩
      simp only [run, he]
      exact hr
    | delete key =>
      obtain ⟨s1, rem, he, hi1, hc1, hrem, ht1, hl1, _, _⟩ := Delete_spec hash s key hinv hc
      have htot : s1.pairTotal = (allPairs s1.buckets).length := by
        rw [ht1, hl1]
        cases rem with
        | false => simpa using ht
        | true =>
          simp only [if_true]
          obtain ⟨q, hq, _⟩ := hrem.mp rfl
          have hpos : 0 < (allPairs s.buckets).length := List.length_pos_of_mem hq
          rw [← ht] at hpos ⊢
          have h264 : (2 : Nat) ^ 64 = 18446744073709551616 := by norm_num
          rw [h264] at hlt ⊢
          omega
      have hle : s1.pairTotal ≤ s.pairTotal + 1 := by
        rw [htot, hl1, ht]
        split <;> omega
      obtain ⟨s2, hr, hi2, ht2⟩ := ih s1 hi1 hc1
        (fun q hq => hp q (List.mem_cons_of_mem _ hq)) htot (by omega)
      refine ⟨s2, ?_, hi2, ht2⟩
      simp only [run, he]
      exact hr

theorem distinctKeys_eq {V σ : Type} (hash : String → Nat) (s : segment V σ)
    (hinv : s.Inv hash) : s.distinctKeys = (allPairs s.buckets).length := by
  unfold segment.distinctKeys segment.keys
  rw [hinv.wf.nodupKeys.dedup, List.length_map]

/-! ## Further facts about the operations -/

theorem Get_total {V σ : Type} (hash : String → Nat) (s : segment V σ) (hinv : s.Inv hash)
    (k : String) : ∃ r, s.Get hash k = Except.ok r := by
  obtain ⟨b, hb⟩ := bucket_exists s.buckets (hash k) hinv.wf.nonempty
  exact ⟨b.Get k, GetWithHash_eq s k (hash k) b hinv.locked hinv.len hb⟩

theorem Get_congr {V σ : Type} (hash : String → Nat) (s s1 : segment V σ)
    (hinv : s.Inv hash) (hinv1 : s1.Inv hash)
    (hmem : ∀ q, q ∈ allPairs s1.buckets ↔ q ∈ allPairs s.buckets) (k : String) :
    s1.Get hash k = s.Get hash k := by
  obtain ⟨r, hr⟩ := Get_total hash s hinv k
  rw [hr]
  cases r with
  | none =>
    rw [Get_none_iff hash s1 hinv1]
    intro q hq
    exact (Get_none_iff hash s hinv k).mp hr q ((hmem q).mp hq)
  | some q =>
    rw [Get_some_iff hash s1 hinv1]
    obtain ⟨h1, h2⟩ := (Get_some_iff hash s hinv k q).mp hr
    exact ⟨(hmem q).mpr h1, h2⟩

theorem bucketAt_inv {V σ : Type} (s : segment V σ) (h i : Nat) (b : Bucket V)
    (hb : bucketAt s h = Except.ok (i, b)) :
    i = h % s.bucketsLen ∧ s.bucketsLen ≠ 0 ∧ s.buckets[i]? = some b := by
  unfold bucketAt at hb
  split at hb
  · exact Except.noConfusion hb
  · rename_i hne
    split at hb
    · exact Except.noConfusion hb
    · rename_i c hc
      have h1 := Except.ok.inj hb
      have h2 := (Prod.mk.inj h1).1
      have h3 := (Prod.mk.inj h1).2
      subst h3
      exact ⟨h2.symm, hne, by rw [← h2]; exact hc⟩

theorem Put_insert_of_bucketAt {V σ : Type} (s : segment V σ) (p : Pair V) (i : Nat)
    (b : Bucket V) (hl : s.lock.isSome = true) (hb : bucketAt s p.Hash = Except.ok (i, b))
    (hnew : ∀ q ∈ b.chain, q.key ≠ p.key) :
    s.Put p = Except.ok
      (((s.putMid i ⟨b.chain ++ [p]⟩).redistribute
          ((s.pairTotal + 1) % 2 ^ 64) (b.chain.length + 1)).1, true, none) := by
  have hany : b.chain.any (fun q => decide (q.key = p.key)) = false := by
    rw [Bool.eq_false_iff]
    intro h
    obtain ⟨q, hq, hk⟩ := List.any_eq_true.mp h
    exact hnew q hq (by simpa using hk)
  unfold segment.Put
  rw [acquire_ok _ hl, hb]
  simp [Bucket.Put, hany, Bucket.Size, segment.putMid]

theorem Delete_remove_of_bucketAt {V σ : Type} (hash : String → Nat) (s : segment V σ)
    (key : String) (i : Nat) (b : Bucket V) (hl : s.lock.isSome = true)
    (hb : bucketAt s (hash key) = Except.ok (i, b))
    (hold : ∃ q ∈ b.chain, q.key = key) :
    s.Delete hash key = Except.ok
      (((s.deleteMid i ⟨b.chain.eraseP (fun q => decide (q.key = key))⟩).redistribute
          ((s.pairTotal + (2 ^ 64 - 1)) % 2 ^ 64) (b.chain.length - 1)).1, true) := by
  have hany : b.chain.any (fun q => decide (q.key = key)) = true := by
    obtain ⟨q, hq, hk⟩ := hold
    exact List.any_eq_true.mpr ⟨q, hq, by simpa using hk⟩
  unfold segment.Delete
  rw [acquire_ok _ hl, hb]
  simp [Bucket.Delete, hany, Bucket.Size, segment.deleteMid, List.length_eraseP]

theorem redistribute_of_fault {V σ : Type} (s : segment V σ) (t z : Nat)
    (hf : PolicyFaults s t z) :
    (s.redistribute t z).1.buckets = s.buckets ∧
    (s.redistribute t z).1.bucketsLen = s.bucketsLen ∧
    ∃ msg, (s.redistribute t z).2 = some (newPairRedistributorError msg) := by
  unfold PolicyFaults at hf
  unfold segment.redistribute
  rcases hf with ⟨st, msg, h1⟩ | ⟨st1, u, st, msg, h1, h2⟩ | ⟨st1, u, st2, status, st, msg, h1, h2, h3⟩
  · simp only [h1]
    exact ⟨trivial, trivial, msg, rfl⟩
  · simp only [h1, h2]
    exact ⟨trivial, trivial, msg, rfl⟩
  · simp only [h1, h2, h3]
    exact ⟨trivial, trivial, msg, rfl⟩

/-- With an initialised lock in place of the nil one: for every finite sequence of Put and
Delete calls applied to the segment `newSegment` returns, with a policy that obeys the contract
of section 4.3 and Pairs whose `Hash()` is the hash of their key, the sequence runs to its end
and `Size()` afterwards is the number of distinct keys stored, which is the sum of the sizes of
all buckets.  The sequence is shorter than `2 ^ 64`, the range of the counter. -/
theorem size_counts_distinct_keys_locked {V σ : Type} (hash : String → Nat) (D M : Nat)
    (dflt : Nat → PairRedistributor V σ) (n : Int) (r : Option (PairRedistributor V σ))
    (s0 : segment V σ) (l : Locker) (ops : List (Op V))
    (h0 : newSegment D M dflt n r = Except.ok s0)
    (hD : n ≤ 0 → 0 < D)
    (hc : PolicyContract s0.pairRedistributor)
    (hp : ∀ p, Op.put p ∈ ops → p.Hash = hash p.key)
    (hlen : ops.length < 2 ^ 64) :
    ∃ s, run hash (s0.withLock l) ops = Except.ok s ∧
      s.Size = s.distinctKeys ∧ s.Size = s.bucketSizeSum := by
  have hinv := newSegment_inv hash D M dflt n r s0 h0 l hD
  obtain ⟨hb, _, ht, _, _⟩ := newSegment_ok D M dflt n r s0 h0
  have ht0 : (s0.withLock l).pairTotal = (allPairs (s0.withLock l).buckets).length := by
    show s0.pairTotal = (allPairs s0.buckets).length
    rw [ht, hb, allPairs_replicate]
    rfl
  have hlt : (s0.withLock l).pairTotal + ops.length < 2 ^ 64 := by
    show s0.pairTotal + ops.length < 2 ^ 64
    rw [ht, Nat.zero_add]
    exact hlen
  obtain ⟨s, hr, hi, htot⟩ := run_spec hash ops _ hinv hc hp ht0 hlt
  refine ⟨s, hr, ?_, ?_⟩
  · rw [distinctKeys_eq hash s hi]
    exact htot
  · show s.pairTotal = (s.buckets.map Bucket.Size).sum
    rw [← allPairs_length]
    exact htot

/-- C1, the code at a failing input: the segment `newSegment` returns for two buckets has a nil
lock, so the first Put of a sequence panics at the lock acquisition and no call of the sequence
completes; the claim gives Size 1 after the Put of "a". -/
theorem C1_fresh_segment_run_panics :
    Option.map (fun s => faultOf (run firstCharHash s [Op.put (mkPair "a" 1)]))
        (newSegment 16 17592186044416 (fun _ => idlePolicy) 2
          (some doublingPolicy)).toOption = some (some Fault.nilDereference) ∧
    Option.map (fun s => faultOf (run firstCharHash s exampleOps))
        (newSegment 16 17592186044416 (fun _ => idlePolicy) 2
          (some doublingPolicy)).toOption = some (some Fault.nilDereference) := by
  refine ⟨by decide, by decide⟩

/-- C2: round trip.  In every state that satisfies the representation invariant (every state
reached from a fresh segment does), under a policy that obeys the contract of section 4.3, Put
of a Pair `(k, v)` whose `Hash()` is `hash k` followed by `Get k` returns a Pair carrying `v`,
and `Delete k` followed by `Get k` returns absent, whether or not the bucket array was
swapped. -/
theorem C2_round_trip {V σ : Type} (hash : String → Nat) (s : segment V σ) (k : String) (v : V)
    (hinv : s.Inv hash) (hc : PolicyContract s.pairRedistributor) :
    (∃ s1 ins err q, s.Put ⟨k, v, hash k⟩ = Except.ok (s1, ins, err) ∧
        s1.Get hash k = Except.ok (some q) ∧ q.key = k ∧ q.value = v) ∧
    (∃ s1 rem, s.Delete hash k = Except.ok (s1, rem) ∧ s1.Get hash k = Except.ok none) := by
  constructor
  · obtain ⟨s1, ins, he, hi1, _, _, _, _, ⟨q, hq, hk, hv⟩, _⟩ :=
      Put_spec hash s ⟨k, v, hash k⟩ hinv hc rfl
    exact ⟨s1, ins, none, q, he, (Get_some_iff hash s1 hi1 k q).mpr ⟨hq, hk⟩, hk, hv⟩
  · obtain ⟨s1, rem, he, hi1, _, _, _, _, habs, _⟩ := Delete_spec hash s k hinv hc
    exact ⟨s1, rem, he, (Get_none_iff hash s1 hi1 k).mpr habs⟩

theorem storedSegment_inv : storedSegment.Inv firstCharHash :=
  ⟨by decide, by decide,
    ⟨by decide, by unfold Placed; decide, by unfold HashOfKey; decide, by decide⟩⟩

/-- Witness of C2: the Put of "b" into the segment that stores "a" doubles the bucket array. -/
theorem C2_round_trip_witness :
    ((∃ s1 ins err q, storedSegment.Put ⟨"b", 7, firstCharHash "b"⟩ = Except.ok (s1, ins, err) ∧
        s1.Get firstCharHash "b" = Except.ok (some q) ∧ q.key = "b" ∧ q.value = 7) ∧
      (∃ s1 rem, storedSegment.Delete firstCharHash "b" = Except.ok (s1, rem) ∧
        s1.Get firstCharHash "b" = Except.ok none)) ∧
    Option.map segment.bucketsLen
      (stateAfter (storedSegment.Put ⟨"b", 7, firstCharHash "b"⟩)) = some 4 :=
  ⟨C2_round_trip firstCharHash storedSegment "b" 7 storedSegment_inv doublingPolicy_contract,
    by decide⟩

/-- C3: rehash preserves reachability.  Under a policy that obeys the contract of section 4.3,
the redistribution step leaves the result of every Get and the Size as they were, whether it
swaps the bucket array or not; hence after a Put or a Delete every key that was stored before
the call, other than the key of the call, is returned by Get with the Pair it had. -/
theorem C3_rehash_preserves_reachability {V σ : Type} (hash : String → Nat) (s : segment V σ)
    (hinv : s.Inv hash) (hc : PolicyContract s.pairRedistributor) :
    (∀ t z k, (s.redistribute t z).1.Get hash k = s.Get hash k ∧
        (s.redistribute t z).1.Size = s.Size) ∧
    (∀ p : Pair V, p.Hash = hash p.key → ∃ s1 ins err, s.Put p = Except.ok (s1, ins, err) ∧
        ∀ k q, k ≠ p.key → s.Get hash k = Except.ok (some q) →
          s1.Get hash k = Except.ok (some q)) ∧
    (∀ key, ∃ s1 rem, s.Delete hash key = Except.ok (s1, rem) ∧
        ∀ k q, k ≠ key → s.Get hash k = Except.ok (some q) →
          s1.Get hash k = Except.ok (some q)) := by
  refine ⟨?_, ?_, ?_⟩
  · intro t z k
    obtain ⟨hi1, _, hperm, ht⟩ := redistribute_inv hash s t z hc hinv
    exact ⟨Get_congr hash s _ hinv hi1 (fun q => hperm.mem_iff) k, ht⟩
  · intro p hp
    obtain ⟨s1, ins, he, hi1, _, _, _, _, _, hkeep⟩ := Put_spec hash s p hinv hc hp
    refine ⟨s1, ins, none, he, ?_⟩
    intro k q hne hg
    obtain ⟨hq, hk⟩ := (Get_some_iff hash s hinv k q).mp hg
    exact (Get_some_iff hash s1 hi1 k q).mpr ⟨hkeep q hq (by rw [hk]; exact hne), hk⟩
  · intro key
    obtain ⟨s1, rem, he, hi1, _, _, _, _, _, hkeep⟩ := Delete_spec hash s key hinv hc
    refine ⟨s1, rem, he, ?_⟩
    intro k q hne hg
    obtain ⟨hq, hk⟩ := (Get_some_iff hash s hinv k q).mp hg
    exact (Get_some_iff hash s1 hi1 k q).mpr ⟨hkeep q hq (by rw [hk]; exact hne), hk⟩

/-- Witness of C3, with the example of section 8: two buckets, Put "a", Put "b", a resize to
four buckets, both keys are returned by Get and the Size is 2. -/
theorem C3_rehash_preserves_reachability_witness :
    ((∀ t z k, (storedSegment.redistribute t z).1.Get firstCharHash k =
          storedSegment.Get firstCharHash k ∧
        (storedSegment.redistribute t z).1.Size = storedSegment.Size) ∧
      (∀ p : Pair Nat, p.Hash = firstCharHash p.key →
        ∃ s1 ins err, storedSegment.Put p = Except.ok (s1, ins, err) ∧
          ∀ k q, k ≠ p.key → storedSegment.Get firstCharHash k = Except.ok (some q) →
            s1.Get firstCharHash k = Except.ok (some q)) ∧
      (∀ key, ∃ s1 rem, storedSegment.Delete firstCharHash key = Except.ok (s1, rem) ∧
        ∀ k q, k ≠ key → storedSegment.Get firstCharHash k = Except.ok (some q) →
          s1.Get firstCharHash k = Except.ok (some q))) ∧
    Option.map segment.bucketsLen
      (run firstCharHash exampleSegment [Op.put (mkPair "a" 1)]).toOption = some 2 ∧
    Option.map segment.bucketsLen
      (run firstCharHash exampleSegment
        [Op.put (mkPair "a" 1), Op.put (mkPair "b" 2)]).toOption = some 4 ∧
    Option.map
      (fun s => ((s.Get firstCharHash "a").toOption, (s.Get firstCharHash "b").toOption, s.Size))
      (run firstCharHash exampleSegment
        [Op.put (mkPair "a" 1), Op.put (mkPair "b" 2)]).toOption =
      some (some (some (mkPair "a" 1)), some (some (mkPair "b" 2)), 2) :=
  ⟨C3_rehash_preserves_reachability firstCharHash storedSegment storedSegment_inv
      doublingPolicy_contract,
    by decide, by decide, by decide⟩

/-- C4: in every state that satisfies the representation invariant, for every Pair whose
`Hash()` is the hash of its key: if the key is stored, Put returns inserted = false, a
following Get of the key returns a Pair with the new value, and the Size is unchanged; if the
key is not stored, Put returns inserted = true and the Size grows by exactly 1 (the counter
being below its maximum). -/
theorem C4_put_overwrites_or_inserts {V σ : Type} (hash : String → Nat) (s : segment V σ)
    (p : Pair V) (hinv : s.Inv hash) (hp : p.Hash = hash p.key) (hsz : s.Size + 1 < 2 ^ 64) :
    ((∃ q ∈ allPairs s.buckets, q.key = p.key) →
      ∃ s1 err q, s.Put p = Except.ok (s1, false, err) ∧
        s1.Get hash p.key = Except.ok (some q) ∧ q.key = p.key ∧ q.value = p.value ∧
        s1.Size = s.Size) ∧
    ((∀ q ∈ allPairs s.buckets, q.key ≠ p.key) →
      ∃ s1 err, s.Put p = Except.ok (s1, true, err) ∧ s1.Size = s.Size + 1) := by
  obtain ⟨b, hb⟩ := bucket_exists s.buckets p.Hash hinv.wf.nonempty
  have hbk : s.buckets[hash p.key % s.buckets.length]? = some b := by rw [← hp]; exact hb
  have hlt : p.Hash % s.buckets.length < s.buckets.length := (List.getElem?_eq_some.mp hb).1
  constructor
  · rintro ⟨q, hq, hk⟩
    have hg := (lookup_iff hash s.buckets hinv.wf p.key b hbk q).mpr ⟨hq, hk⟩
    have hold : ∃ q ∈ b.chain, q.key = p.key := ⟨q, List.mem_of_find?_eq_some hg, hk⟩
    obtain ⟨q0, _, hk0, hf⟩ := find_overwrite p b.chain hold
    refine ⟨_, none, { q0 with value := p.value },
      Put_overwrite_eq s p b hinv.locked hinv.len hb hold, ?_, hk0, rfl, rfl⟩
    unfold segment.Get
    rw [← hp]
    have hb1 : (s.buckets.set (p.Hash % s.buckets.length) ⟨overwrite p b.chain⟩)[p.Hash %
        (s.buckets.set (p.Hash % s.buckets.length) ⟨overwrite p b.chain⟩).length]? =
        some ⟨overwrite p b.chain⟩ := by
      rw [List.length_set]
      exact List.getElem?_set_self hlt
    have hlen1 : s.bucketsLen =
        (s.buckets.set (p.Hash % s.buckets.length) ⟨overwrite p b.chain⟩).length := by
      rw [List.length_set]
      exact hinv.len
    have hg1 := GetWithHash_eq
      ({ s with buckets := s.buckets.set (p.Hash % s.buckets.length) ⟨overwrite p b.chain⟩ } :
        segment V σ) p.key p.Hash ⟨overwrite p b.chain⟩ hinv.locked hlen1 hb1
    rw [hg1]
    show Except.ok (List.find? _ (overwrite p b.chain)) = _
    rw [hf]
  · intro hnew
    have hnewb : ∀ q ∈ b.chain, q.key ≠ p.key :=
      fun q hq => hnew q ((mem_allPairs _ q).mpr ⟨_, b, hb, hq⟩)
    refine ⟨_, none, Put_insert_eq s p b hinv.locked hinv.len hb hnewb, ?_⟩
    obtain ⟨_, ht, _, _⟩ := redistribute_frame
      (s.putMid (p.Hash % s.buckets.length) ⟨b.chain ++ [p]⟩)
      ((s.pairTotal + 1) % 2 ^ 64) (b.chain.length + 1)
    show (segment.redistribute _ _ _).1.pairTotal = s.pairTotal + 1
    rw [ht]
    show (s.pairTotal + 1) % 2 ^ 64 = s.pairTotal + 1
    exact Nat.mod_eq_of_lt hsz

/-- Witness of C4: the key "a" is stored in the segment, the key "c" is not. -/
theorem C4_put_overwrites_or_inserts_witness :
    (∃ s1 err q, storedSegment.Put (mkPair "a" 9) = Except.ok (s1, false, err) ∧
        s1.Get firstCharHash "a" = Except.ok (some q) ∧ q.key = "a" ∧ q.value = 9 ∧
        s1.Size = storedSegment.Size) ∧
    (∃ s1 err, storedSegment.Put (mkPair "c" 3) = Except.ok (s1, true, err) ∧
        s1.Size = storedSegment.Size + 1) :=
  ⟨(C4_put_overwrites_or_inserts firstCharHash storedSegment (mkPair "a" 9) storedSegment_inv
      rfl (by decide)).1 ⟨mkPair "a" 1, by decide, rfl⟩,
    (C4_put_overwrites_or_inserts firstCharHash storedSegment (mkPair "c" 3) storedSegment_inv
      rfl (by decide)).2 (by decide)⟩

/-- C5: in every state whose lock is initialised and whose `bucketsLen` is the positive length
of the bucket array, Delete of a key that is not stored returns false and leaves the Size, and
the whole segment, unchanged. -/
theorem C5_delete_absent_key {V σ : Type} (hash : String → Nat) (s : segment V σ)
    (key : String) (hl : s.lock.isSome = true) (hlen : s.bucketsLen = s.buckets.length)
    (hpos : 0 < s.bucketsLen) (habs : ∀ q ∈ allPairs s.buckets, q.key ≠ key) :
    ∃ s1, s.Delete hash key = Except.ok (s1, false) ∧ s1.Size = s.Size ∧ s1 = s := by
  obtain ⟨b, hb⟩ := bucket_exists s.buckets (hash key) (by omega)
  have hnewb : ∀ q ∈ b.chain, q.key ≠ key :=
    fun q hq => habs q ((mem_allPairs _ q).mpr ⟨_, b, hb, hq⟩)
  exact ⟨s, Delete_absent_eq hash s key b hl hlen hb hnewb, rfl, rfl⟩

/-- Witness of C5: the key "zz" is not stored in the segment that stores "a". -/
theorem C5_delete_absent_key_witness :
    ∃ s1, storedSegment.Delete firstCharHash "zz" = Except.ok (s1, false) ∧
      s1.Size = storedSegment.Size ∧ s1 = storedSegment :=
  C5_delete_absent_key firstCharHash storedSegment "zz" (by decide) (by decide) (by decide)
    (by decide)

/-- C6, the code at a failing input: the policy panics in the redistribution step of a Put that
inserts the key "a"; `redistribute` returns the PairRedistributorError, and Put returns
inserted = true with no error. -/
theorem C6_put_drops_redistribution_error :
    ((faultySegment.putMid 1 ⟨[mkPair "a" 1]⟩).redistribute 2 1).2 =
        some (newPairRedistributorError "threshold overflow") ∧
    bucketAt faultySegment (mkPair "a" 1).Hash = Except.ok (1, ⟨[]⟩) ∧
    outcome (faultySegment.Put (mkPair "a" 1)) = some (true, none) := by
  refine ⟨by decide, rfl, by decide⟩

/-- C7: a panic of the policy does not undo the mutation and does not resize.  For a Put that
inserts a key, and for a Delete that removes one, during which one of the three policy calls
panics: the call returns, the bucket array is the array after the mutation by the bucket itself,
`bucketsLen` is unchanged, the Size has moved by exactly 1, and the key is present,
respectively absent, afterwards. -/
theorem C7_fault_keeps_mutation {V σ : Type} (hash : String → Nat) (s : segment V σ)
    (hl : s.lock.isSome = true) :
    (∀ (p : Pair V) (i : Nat) (b : Bucket V),
      bucketAt s p.Hash = Except.ok (i, b) → (∀ q ∈ b.chain, q.key ≠ p.key) →
      PolicyFaults (s.putMid i ⟨b.chain ++ [p]⟩) ((s.pairTotal + 1) % 2 ^ 64)
        (b.chain.length + 1) →
      s.Size + 1 < 2 ^ 64 →
      ∃ s1, s.Put p = Except.ok (s1, true, none) ∧
        s1.buckets = s.buckets.set i ⟨b.chain ++ [p]⟩ ∧ s1.bucketsLen = s.bucketsLen ∧
        s1.Size = s.Size + 1 ∧ s1.GetWithHash p.key p.Hash = Except.ok (some p) ∧
        (p.Hash = hash p.key → s1.Get hash p.key = Except.ok (some p))) ∧
    (∀ (key : String) (i : Nat) (b : Bucket V),
      bucketAt s (hash key) = Except.ok (i, b) → (∃ q ∈ b.chain, q.key = key) →
      (b.chain.map Pair.key).Nodup →
      PolicyFaults (s.deleteMid i ⟨b.chain.eraseP (fun q => decide (q.key = key))⟩)
        ((s.pairTotal + (2 ^ 64 - 1)) % 2 ^ 64) (b.chain.length - 1) →
      0 < s.Size → s.Size < 2 ^ 64 →
      ∃ s1, s.Delete hash key = Except.ok (s1, true) ∧
        s1.buckets = s.buckets.set i ⟨b.chain.eraseP (fun q => decide (q.key = key))⟩ ∧
        s1.bucketsLen = s.bucketsLen ∧ s1.Size + 1 = s.Size ∧
        s1.Get hash key = Except.ok none) := by
  constructor
  · intro p i b hb hnew hf hsz
    obtain ⟨hi, hne, hbi⟩ := bucketAt_inv s p.Hash i b hb
    obtain ⟨hfb, hfl, _⟩ := redistribute_of_fault _ _ _ hf
    obtain ⟨hlk, ht, _, _⟩ := redistribute_frame (s.putMid i ⟨b.chain ++ [p]⟩)
      ((s.pairTotal + 1) % 2 ^ 64) (b.chain.length + 1)
    have hilt : i < s.buckets.length := (List.getElem?_eq_some.mp hbi).1
    have hget : (segment.redistribute (s.putMid i ⟨b.chain ++ [p]⟩)
        ((s.pairTotal + 1) % 2 ^ 64) (b.chain.length + 1)).1.GetWithHash p.key p.Hash =
        Except.ok (some p) := by
      unfold segment.GetWithHash
      rw [hlk]
      have hl1 : (s.putMid i ⟨b.chain ++ [p]⟩).lock.isSome = true := hl
      rw [acquire_ok _ hl1]
      unfold bucketAt
      rw [hfl, hfb]
      have hl2 : (s.putMid i ⟨b.chain ++ [p]⟩).bucketsLen = s.bucketsLen := rfl
      have hl3 : (s.putMid i ⟨b.chain ++ [p]⟩).buckets = s.buckets.set i ⟨b.chain ++ [p]⟩ :=
        rfl
      rw [hl2, hl3, if_neg hne, ← hi, List.getElem?_set_self hilt]
      show Except.ok (List.find? _ (b.chain ++ [p])) = _
      rw [List.find?_append]
      have hnone : b.chain.find? (fun q => decide (q.key = p.key)) = none := by
        rw [List.find?_eq_none]
        intro q hq
        simpa using hnew q hq
      rw [hnone]
      simp
    refine ⟨_, Put_insert_of_bucketAt s p i b hl hb hnew, hfb, hfl, ?_, hget, ?_⟩
    · show (segment.redistribute _ _ _).1.pairTotal = s.pairTotal + 1
      rw [ht]
      show (s.pairTotal + 1) % 2 ^ 64 = s.pairTotal + 1
      exact Nat.mod_eq_of_lt hsz
    · intro hp
      unfold segment.Get
      rw [← hp]
      exact hget
  · intro key i b hb hold hnd hf hpos hsz
    obtain ⟨hi, hne, hbi⟩ := bucketAt_inv s (hash key) i b hb
    obtain ⟨hfb, hfl, _⟩ := redistribute_of_fault _ _ _ hf
    obtain ⟨hlk, ht, _, _⟩ := redistribute_frame
      (s.deleteMid i ⟨b.chain.eraseP (fun q => decide (q.key = key))⟩)
      ((s.pairTotal + (2 ^ 64 - 1)) % 2 ^ 64) (b.chain.length - 1)
    have hilt : i < s.buckets.length := (List.getElem?_eq_some.mp hbi).1
    refine ⟨_, Delete_remove_of_bucketAt hash s key i b hl hb hold, hfb, hfl, ?_, ?_⟩
    · show (segment.redistribute _ _ _).1.pairTotal + 1 = s.pairTotal
      rw [ht]
      show (s.pairTotal + (2 ^ 64 - 1)) % 2 ^ 64 + 1 = s.pairTotal
      have hpos1 : 0 < s.pairTotal := hpos
      have hsz1 : s.pairTotal < 2 ^ 64 := hsz
      have h264 : (2 : Nat) ^ 64 = 18446744073709551616 := by norm_num
      rw [h264] at hsz1 ⊢
      omega
    · unfold segment.Get segment.GetWithHash
      rw [hlk]
      have hl1 : (s.deleteMid i
          ⟨b.chain.eraseP (fun q => decide (q.key = key))⟩).lock.isSome = true := hl
      rw [acquire_ok _ hl1]
      unfold bucketAt
      rw [hfl, hfb]
      have hl2 : (s.deleteMid i
          ⟨b.chain.eraseP (fun q => decide (q.key = key))⟩).bucketsLen = s.bucketsLen := rfl
      have hl3 : (s.deleteMid i
          ⟨b.chain.eraseP (fun q => decide (q.key = key))⟩).buckets =
          s.buckets.set i ⟨b.chain.eraseP (fun q => decide (q.key = key))⟩ := rfl
      rw [hl2, hl3, if_neg hne, ← hi, List.getElem?_set_self hilt]
      show Except.ok (List.find? _ (b.chain.eraseP _)) = _
      have hnone : (b.chain.eraseP (fun q => decide (q.key = key))).find?
          (fun q => decide (q.key = key)) = none := by
        rw [List.find?_eq_none]
        intro q hq
        simpa using eraseP_key_absent key b.chain hnd q hq
      rw [hnone]

/-- Witness of C7: the policy of the segment panics in its threshold update; Put of the new key
"a" and Delete of the stored key "b". -/
theorem C7_fault_keeps_mutation_witness :
    (∃ s1, faultySegment.Put (mkPair "a" 1) = Except.ok (s1, true, none) ∧
        s1.buckets = faultySegment.buckets.set 1 ⟨[] ++ [mkPair "a" 1]⟩ ∧
        s1.bucketsLen = faultySegment.bucketsLen ∧
        s1.Size = faultySegment.Size + 1 ∧
        s1.GetWithHash "a" (mkPair "a" 1).Hash = Except.ok (some (mkPair "a" 1)) ∧
        ((mkPair "a" 1).Hash = firstCharHash "a" →
          s1.Get firstCharHash "a" = Except.ok (some (mkPair "a" 1)))) ∧
    (∃ s1, faultySegment.Delete firstCharHash "b" = Except.ok (s1, true) ∧
        s1.buckets = faultySegment.buckets.set 0
          ⟨[mkPair "b" 2].eraseP (fun q => decide (q.key = "b"))⟩ ∧
        s1.bucketsLen = faultySegment.bucketsLen ∧ s1.Size + 1 = faultySegment.Size ∧
        s1.Get firstCharHash "b" = Except.ok none) :=
  ⟨(C7_fault_keeps_mutation firstCharHash faultySegment (by decide)).1 (mkPair "a" 1) 1 ⟨[]⟩
      rfl (by decide) (Or.inl ⟨0, "threshold overflow", rfl⟩) (by decide),
    (C7_fault_keeps_mutation firstCharHash faultySegment (by decide)).2 "b" 0 ⟨[mkPair "b" 2]⟩
      rfl ⟨mkPair "b" 2, by decide, rfl⟩ (by decide) (Or.inl ⟨0, "threshold overflow", rfl⟩)
      (by decide) (by decide)⟩

/-- C9, the claim as stated fails: for the bucket count `2 ^ 63 - 1` the call of `make` panics
(makeslice: len out of range) and `newSegment` returns no segment.  The bound is the one of a
64-bit platform, `2 ^ 44` values of an interface type. -/
theorem C9_newSegment_counterexample :
    faultOf (newSegment 16 17592186044416 (fun _ => (idlePolicy : PairRedistributor Nat Nat))
        9223372036854775807 none) = some Fault.makesliceLenOutOfRange := by
  decide

/-- C9 as amended: construction does not fail on a non-positive bucket count, nor on a positive
one that `make` can allocate.  Let the effective count be bucketNumber when it is positive and
DEFAULT_BUCKET_NUMBER otherwise.  When the effective count is within the largest slice length,
`newSegment` returns a segment with exactly that many buckets, all of them empty, `bucketsLen`
equal to that length and Size 0; when it is beyond it, `make` panics and no segment is
returned. -/
theorem C9_newSegment_shape {V σ : Type} (D M : Nat) (dflt : Nat → PairRedistributor V σ)
    (n : Int) (r : Option (PairRedistributor V σ)) :
    ((if n ≤ 0 then D else n.toNat) ≤ M →
      ∃ s0, newSegment D M dflt n r = Except.ok s0 ∧
        (0 < n → (s0.buckets.length : Int) = n) ∧
        (n ≤ 0 → s0.buckets.length = D) ∧
        (∀ b ∈ s0.buckets, b = NewBucket ∧ b.Size = 0) ∧
        s0.bucketsLen = s0.buckets.length ∧
        s0.Size = 0) ∧
    (M < (if n ≤ 0 then D else n.toNat) →
      newSegment D M dflt n r = Except.error Fault.makesliceLenOutOfRange) := by
  refine ⟨?_, newSegment_panics D M dflt n r⟩
  intro hle
  obtain ⟨s0, h0⟩ := newSegment_returns D M dflt n r hle
  obtain ⟨hb, hbl, ht, _, _⟩ := newSegment_ok D M dflt n r s0 h0
  refine ⟨s0, h0, ?_⟩
  rw [hb, hbl, List.length_replicate]
  refine ⟨?_, ?_, ?_, rfl, ht⟩
  · intro hn
    rw [if_neg (by omega)]
    omega
  · intro hn
    rw [if_pos hn]
  · intro b hb1
    have := List.eq_of_mem_replicate hb1
    subst this
    exact ⟨rfl, rfl⟩

/-- Witness of C9 as amended: the bucket counts 5 and -3 with the default 16, and the count
`2 ^ 63 - 1`. -/
theorem C9_newSegment_shape_witness :
    (∃ s0, newSegment 16 17592186044416 (fun _ => (idlePolicy : PairRedistributor Nat Nat)) 5
          none = Except.ok s0 ∧
        (0 < (5 : Int) → (s0.buckets.length : Int) = 5) ∧
        ((5 : Int) ≤ 0 → s0.buckets.length = 16) ∧
        (∀ b ∈ s0.buckets, b = NewBucket ∧ b.Size = 0) ∧
        s0.bucketsLen = s0.buckets.length ∧
        s0.Size = 0) ∧
    (∃ s0, newSegment 16 17592186044416 (fun _ => (idlePolicy : PairRedistributor Nat Nat)) (-3)
          none = Except.ok s0 ∧
        (0 < (-3 : Int) → (s0.buckets.length : Int) = -3) ∧
        ((-3 : Int) ≤ 0 → s0.buckets.length = 16) ∧
        (∀ b ∈ s0.buckets, b = NewBucket ∧ b.Size = 0) ∧
        s0.bucketsLen = s0.buckets.length ∧
        s0.Size = 0) ∧
    newSegment 16 17592186044416 (fun _ => (idlePolicy : PairRedistributor Nat Nat))
        9223372036854775807 none = Except.error Fault.makesliceLenOutOfRange :=
  ⟨(C9_newSegment_shape 16 17592186044416 (fun _ => (idlePolicy : PairRedistributor Nat Nat)) 5
      none).1 (by decide),
    (C9_newSegment_shape 16 17592186044416 (fun _ => (idlePolicy : PairRedistributor Nat Nat))
      (-3) none).1 (by decide),
    (C9_newSegment_shape 16 17592186044416 (fun _ => (idlePolicy : PairRedistributor Nat Nat))
      9223372036854775807 none).2 (by decide)⟩

/-- C10, the code at every input: every segment `newSegment` returns has a nil lock, and Put,
GetWithHash, Get and Delete on it panic at the lock acquisition. -/
theorem C10_newSegment_lock_is_nil {V σ : Type} (hash : String → Nat) (D M : Nat)
    (dflt : Nat → PairRedistributor V σ) (n : Int) (r : Option (PairRedistributor V σ))
    (s0 : segment V σ) (h0 : newSegment D M dflt n r = Except.ok s0)
    (p : Pair V) (key : String) (h : Nat) :
    s0.lock = none ∧
    s0.Put p = Except.error Fault.nilDereference ∧
    s0.GetWithHash key h = Except.error Fault.nilDereference ∧
    s0.Get hash key = Except.error Fault.nilDereference ∧
    s0.Delete hash key = Except.error Fault.nilDereference := by
  obtain ⟨_, _, _, hl, _⟩ := newSegment_ok D M dflt n r s0 h0
  refine ⟨hl, ?_, ?_, ?_, ?_⟩
  · unfold segment.Put
    rw [hl]
    rfl
  · unfold segment.GetWithHash
    rw [hl]
    rfl
  · unfold segment.Get segment.GetWithHash
    rw [hl]
    rfl
  · unfold segment.Delete
    rw [hl]
    rfl

/-- Witness of C10: the segment `newSegment` returns for two buckets and the doubling
policy. -/
theorem C10_newSegment_lock_is_nil_witness :
    newSegment 16 17592186044416 (fun _ => idlePolicy) 2 (some doublingPolicy) =
        Except.ok freshSegment ∧
    freshSegment.lock = none ∧
    freshSegment.Put (mkPair "a" 1) = Except.error Fault.nilDereference ∧
    freshSegment.GetWithHash "a" 97 = Except.error Fault.nilDereference ∧
    freshSegment.Get firstCharHash "a" = Except.error Fault.nilDereference ∧
    freshSegment.Delete firstCharHash "a" = Except.error Fault.nilDereference :=
  ⟨newSegment_fresh,
    C10_newSegment_lock_is_nil firstCharHash 16 17592186044416 (fun _ => idlePolicy) 2
      (some doublingPolicy) freshSegment newSegment_fresh (mkPair "a" 1) "a" 97⟩

/-! ## Further lemmas: the counter, the policy calls, the untouched paths -/

theorem run_reach {V σ : Type} (hash : String → Nat) (ops : List (Op V)) :
    ∀ s : segment V σ, s.Inv hash → PolicyContract s.pairRedistributor →
      (∀ p, Op.put p ∈ ops → p.Hash = hash p.key) →
      s.pairTotal = (allPairs s.buckets).length →
      s.pairTotal + ops.length < 2 ^ 64 →
      ∃ s1, run hash s ops = Except.ok s1 ∧ s1.Inv hash ∧
        PolicyContract s1.pairRedistributor ∧
        s1.pairTotal = (allPairs s1.buckets).length ∧
        s1.pairTotal ≤ s.pairTotal + ops.length := by
  induction ops with
  | nil =>
    intro s hinv hc _ ht _
    exact ⟨s, rfl, hinv, hc, ht, Nat.le_refl _⟩
  | cons op ops ih =>
    intro s hinv hc hp ht hlt
    simp only [List.length_cons] at hlt ⊢
    cases op with
    | put p =>
      obtain ⟨s1, ins, he, hi1, hc1, _, ht1, hl1, _, _⟩ :=
        Put_spec hash s p hinv hc (hp p (List.mem_cons_self _ _))
      have htot : s1.pairTotal = (allPairs s1.buckets).length := by
        rw [ht1, hl1]
        cases ins with
        | false => simpa using ht
        | true =>
          simp only [if_true]
          rw [Nat.mod_eq_of_lt (by omega), ht]
      have hle : s1.pairTotal ≤ s.pairTotal + 1 := by
        rw [htot, hl1, ht]
        split <;> omega
      obtain ⟨s2, hr, hi2, hc2, ht2, hb2⟩ := ih s1 hi1 hc1
        (fun q hq => hp q (List.mem_cons_of_mem _ hq)) htot (by omega)
      refine ⟨s2, ?_, hi2, hc2, ht2, by omega⟩
      simp only [run, he]
      exact hr
    | delete key =>
      obtain ⟨s1, rem, he, hi1, hc1, hrem, ht1, hl1, _, _⟩ := Delete_spec hash s key hinv hc
      have htot : s1.pairTotal = (allPairs s1.buckets).length := by
        rw [ht1, hl1]
        cases rem with
        | false => simpa using ht
        | true =>
          simp only [if_true]
          obtain ⟨q, hq, _⟩ := hrem.mp rfl
          have hpos : 0 < (allPairs s.buckets).length := List.length_pos_of_mem hq
          rw [← ht] at hpos ⊢
          have h264 : (2 : Nat) ^ 64 = 18446744073709551616 := by norm_num
          rw [h264] at hlt ⊢
          omega
      have hle : s1.pairTotal ≤ s.pairTotal + 1 := by
        rw [htot, hl1, ht]
        split <;> omega
      obtain ⟨s2, hr, hi2, hc2, ht2, hb2⟩ := ih s1 hi1 hc1
        (fun q hq => hp q (List.mem_cons_of_mem _ hq)) htot (by omega)
      refine ⟨s2, ?_, hi2, hc2, ht2, by omega⟩
      simp only [run, he]
      exact hr

theorem Size_eq {V σ : Type} (s : segment V σ) : s.Size = s.pairTotal := rfl

theorem deleteMid_pairTotal {V σ : Type} (s : segment V σ) (i : Nat) (b : Bucket V) :
    (s.deleteMid i b).pairTotal = (s.pairTotal + (2 ^ 64 - 1)) % 2 ^ 64 := rfl

theorem decrement_exact (c : Nat) (h1 : 1 ≤ c) (h2 : c < 2 ^ 64) :
    (c + (2 ^ 64 - 1)) % 2 ^ 64 + 1 = c := by
  have h264 : (2 : Nat) ^ 64 = 18446744073709551616 := by norm_num
  rw [h264] at h2 ⊢
  omega

theorem decrement_mod (c : Nat) :
    ((c + (2 ^ 64 - 1)) % 2 ^ 64 + 1) % 2 ^ 64 = c % 2 ^ 64 := by
  have h264 : (2 : Nat) ^ 64 = 18446744073709551616 := by norm_num
  rw [h264]
  omega

theorem Put_overwrite_of_bucketAt {V σ : Type} (s : segment V σ) (p : Pair V) (i : Nat)
    (b : Bucket V) (hl : s.lock.isSome = true) (hb : bucketAt s p.Hash = Except.ok (i, b))
    (hold : ∃ q ∈ b.chain, q.key = p.key) :
    s.Put p = Except.ok
      ({ s with buckets := s.buckets.set i ⟨overwrite p b.chain⟩ }, false, none) := by
  have hany : b.chain.any (fun q => decide (q.key = p.key)) = true := by
    obtain ⟨q, hq, hk⟩ := hold
    exact List.any_eq_true.mpr ⟨q, hq, by simpa using hk⟩
  unfold segment.Put
  rw [acquire_ok _ hl, hb]
  simp [Bucket.Put, hany]

theorem Delete_absent_of_bucketAt {V σ : Type} (hash : String → Nat) (s : segment V σ)
    (key : String) (i : Nat) (b : Bucket V) (hl : s.lock.isSome = true)
    (hb : bucketAt s (hash key) = Except.ok (i, b))
    (hnew : ∀ q ∈ b.chain, q.key ≠ key) :
    s.Delete hash key = Except.ok (s, false) := by
  obtain ⟨_, _, hbi⟩ := bucketAt_inv s (hash key) i b hb
  have hany : b.chain.any (fun q => decide (q.key = key)) = false := by
    rw [Bool.eq_false_iff]
    intro h
    obtain ⟨q, hq, hk⟩ := List.any_eq_true.mp h
    exact hnew q hq (by simpa using hk)
  have her : b.chain.eraseP (fun q => decide (q.key = key)) = b.chain := by
    apply List.eraseP_of_forall_not
    intro q hq
    simpa using hnew q hq
  unfold segment.Delete
  rw [acquire_ok _ hl, hb]
  simp [Bucket.Delete, hany, her, set_same s.buckets _ b hbi]

theorem redistribute_traced {V σ : Type} (s : segment V (σ × List (Call V)))
    (r : PairRedistributor V σ) (st : σ) (log : List (Call V)) (t z : Nat)
    (hr : s.pairRedistributor = (traced r).withState (st, log)) :
    (s.redistribute t z).1.pairRedistributor.state.2 =
      log ++ specCalls r st t s.bucketsLen z s.buckets := by
  unfold segment.redistribute specCalls
  rw [hr]
  simp only [traced, PairRedistributor.withState]
  rcases h1 : r.UpdateThreshold st t s.bucketsLen with ⟨st1, msg | u⟩
  · simp
  · rcases h2 : r.CheckBucketStatus st1 t z with ⟨st2, msg | status⟩
    · simp [h2]
    · rcases h3 : r.Redistributor st2 status s.buckets with ⟨st3, msg | ⟨new, changed⟩⟩
      · simp [h2, h3]
      · cases changed <;> simp [h2, h3]

theorem specCalls_head {V σ : Type} (r : PairRedistributor V σ) (st : σ) (t n z : Nat)
    (bs : List (Bucket V)) :
    ∃ rest, specCalls r st t n z bs = Call.updateThreshold t n :: rest := by
  unfold specCalls
  rcases h1 : r.UpdateThreshold st t n with ⟨st1, msg | u⟩
  · exact ⟨[], rfl⟩
  · rcases h2 : r.CheckBucketStatus st1 t z with ⟨st2, msg | status⟩
    · simp only [h2]
      exact ⟨_, rfl⟩
    · simp only [h2]
      exact ⟨_, rfl⟩

theorem specCalls_full {V σ : Type} (r : PairRedistributor V σ) (st st1 st2 : σ) (u : Unit)
    (status : BucketStatus) (t n z : Nat) (bs : List (Bucket V))
    (h1 : r.UpdateThreshold st t n = (st1, Except.ok u))
    (h2 : r.CheckBucketStatus st1 t z = (st2, Except.ok status)) :
    specCalls r st t n z bs =
      [Call.updateThreshold t n, Call.checkBucketStatus t z, Call.redistributor status bs] := by
  unfold specCalls
  rw [h1]
  simp only
  rw [h2]

/-- C11: the counter update of Delete is an exact decrement.  Adding `2 ^ 64 - 1` modulo
`2 ^ 64` to a counter `c` gives `c - 1` modulo `2 ^ 64`, and `c - 1` itself when `c >= 1`; a
Delete that removes a key from a segment with Size `c >= 1` leaves Size `c - 1`; and in every
state reached from a fresh segment (its lock initialised, the policy obeying section 4.3, the
Pairs hashed by their key) a Delete that removes a key finds the counter at 1 or more, so it
does not wrap. -/
theorem C11_delete_decrements_exactly {V σ : Type} (hash : String → Nat) (D M : Nat)
    (dflt : Nat → PairRedistributor V σ) (n : Int) (r : Option (PairRedistributor V σ))
    (s0 : segment V σ) (l : Locker) (ops : List (Op V))
    (h0 : newSegment D M dflt n r = Except.ok s0)
    (hD : n ≤ 0 → 0 < D)
    (hc : PolicyContract s0.pairRedistributor)
    (hp : ∀ p, Op.put p ∈ ops → p.Hash = hash p.key)
    (hlen : ops.length < 2 ^ 64) :
    (∀ (s : segment V σ) (i : Nat) (b : Bucket V),
      ((s.deleteMid i b).Size + 1) % 2 ^ 64 = s.Size % 2 ^ 64 ∧
      (1 ≤ s.Size → s.Size < 2 ^ 64 → (s.deleteMid i b).Size + 1 = s.Size)) ∧
    (∀ (s : segment V σ) (key : String) (i : Nat) (b : Bucket V),
      s.lock.isSome = true → bucketAt s (hash key) = Except.ok (i, b) →
      (∃ q ∈ b.chain, q.key = key) → 1 ≤ s.Size → s.Size < 2 ^ 64 →
      ∃ s1, s.Delete hash key = Except.ok (s1, true) ∧ s1.Size + 1 = s.Size) ∧
    (∃ s, run hash (s0.withLock l) ops = Except.ok s ∧
      s.Size < 2 ^ 64 ∧
      ∀ key s1, s.Delete hash key = Except.ok (s1, true) →
        1 ≤ s.Size ∧ s1.Size + 1 = s.Size) := by
  refine ⟨?_, ?_, ?_⟩
  · intro s i b
    have h264 : (2 : Nat) ^ 64 = 18446744073709551616 := by norm_num
    rw [Size_eq, Size_eq, deleteMid_pairTotal, h264]
    constructor
    · omega
    · intro h1 h2
      omega
  · intro s key i b hl hb hold h1 h2
    refine ⟨_, Delete_remove_of_bucketAt hash s key i b hl hb hold, ?_⟩
    obtain ⟨_, ht, _, _⟩ := redistribute_frame
      (s.deleteMid i ⟨b.chain.eraseP (fun q => decide (q.key = key))⟩)
      ((s.pairTotal + (2 ^ 64 - 1)) % 2 ^ 64) (b.chain.length - 1)
    show (segment.redistribute _ _ _).1.pairTotal + 1 = s.pairTotal
    rw [ht]
    exact decrement_exact s.pairTotal h1 h2
  · have hinv := newSegment_inv hash D M dflt n r s0 h0 l hD
    obtain ⟨hb, _, ht, _, _⟩ := newSegment_ok D M dflt n r s0 h0
    have ht0 : (s0.withLock l).pairTotal = (allPairs (s0.withLock l).buckets).length := by
      show s0.pairTotal = (allPairs s0.buckets).length
      rw [ht, hb, allPairs_replicate]
      rfl
    have hz : (s0.withLock l).pairTotal = 0 := ht
    have hlt : (s0.withLock l).pairTotal + ops.length < 2 ^ 64 := by
      rw [hz, Nat.zero_add]
      exact hlen
    obtain ⟨s, hr, hi, hcs, htot, hle⟩ := run_reach hash ops _ hinv hc hp ht0 hlt
    rw [hz, Nat.zero_add] at hle
    have hs : s.pairTotal < 2 ^ 64 := Nat.lt_of_le_of_lt hle hlen
    refine ⟨s, hr, hs, ?_⟩
    intro key s1 hd
    obtain ⟨s2, rem, he, _, _, hrem, ht1, _, _, _⟩ := Delete_spec hash s key hi hcs
    rw [hd] at he
    have h1 := (Prod.mk.inj (Except.ok.inj he)).1
    have h2 := (Prod.mk.inj (Except.ok.inj he)).2
    subst h1
    subst h2
    obtain ⟨q, hq, _⟩ := hrem.mp rfl
    have hpos : 1 ≤ s.pairTotal := by
      rw [htot]
      exact List.length_pos_of_mem hq
    refine ⟨hpos, ?_⟩
    show s1.pairTotal + 1 = s.pairTotal
    rw [ht1]
    simp only [if_true]
    exact decrement_exact s.pairTotal hpos hs

/-- Witness of C11: the run of the example leaves the key "a" stored; its Delete takes the
counter from 1 to 0. -/
theorem C11_delete_decrements_exactly_witness :
    (∃ s, run firstCharHash (freshSegment.withLock {}) exampleOps = Except.ok s ∧
      s.Size < 2 ^ 64 ∧
      ∀ key s1, s.Delete firstCharHash key = Except.ok (s1, true) →
        1 ≤ s.Size ∧ s1.Size + 1 = s.Size) ∧
    Option.map (fun s => (s.Size, Option.map segment.Size
        (stateAfter (s.Delete firstCharHash "a")), outcome (s.Delete firstCharHash "a")))
      (run firstCharHash exampleSegment exampleOps).toOption = some (1, some 0, some true) :=
  ⟨(C11_delete_decrements_exactly firstCharHash 16 17592186044416 (fun _ => idlePolicy) 2
      (some doublingPolicy) freshSegment {} exampleOps newSegment_fresh (by decide)
      doublingPolicy_contract
      (by
        intro p hp
        simp only [exampleOps, List.mem_cons, Op.put.injEq, List.mem_singleton, reduceCtorEq,
          List.not_mem_nil, or_false] at hp
        rcases hp with h | h | h <;> subst h <;> rfl)
      (by simp [exampleOps])).2.2,
    by decide⟩

/-- C13: the redistribution step applies the answer of the policy exactly.  When the threshold
update and the status check return and Redistributor returns `(newBuckets, changed)`: if
`changed` holds, the bucket array is `newBuckets` and `bucketsLen` is its length afterwards; if
not, the bucket array and `bucketsLen` are unchanged.  In both cases no error is returned and
the counter and the lock are untouched. -/
theorem C13_redistribute_applies_answer {V σ : Type} (s : segment V σ) (t z : Nat)
    (st1 st2 st3 : σ) (u : Unit) (status : BucketStatus) (newBuckets : List (Bucket V))
    (changed : Bool)
    (h1 : s.pairRedistributor.UpdateThreshold s.pairRedistributor.state t s.bucketsLen =
      (st1, Except.ok u))
    (h2 : s.pairRedistributor.CheckBucketStatus st1 t z = (st2, Except.ok status))
    (h3 : s.pairRedistributor.Redistributor st2 status s.buckets =
      (st3, Except.ok (newBuckets, changed))) :
    (changed = true → (s.redistribute t z).1.buckets = newBuckets ∧
      (s.redistribute t z).1.bucketsLen = newBuckets.length) ∧
    (changed = false → (s.redistribute t z).1.buckets = s.buckets ∧
      (s.redistribute t z).1.bucketsLen = s.bucketsLen) ∧
    (s.redistribute t z).2 = none ∧
    (s.redistribute t z).1.pairTotal = s.pairTotal ∧
    (s.redistribute t z).1.lock = s.lock ∧
    (s.redistribute t z).1.pairRedistributor.state = st3 := by
  unfold segment.redistribute
  simp only [h1, h2, h3]
  cases changed <;> simp [PairRedistributor.withState]

/-- Witness of C13: the doubling policy answers the second insertion with a new array of four
buckets, and the first one with no change. -/
theorem C13_redistribute_applies_answer_witness :
    ((true = true → ((storedSegment.putMid 0 ⟨[mkPair "b" 2]⟩).redistribute 2 1).1.buckets =
          rehash 4 [⟨[mkPair "b" 2]⟩, ⟨[mkPair "a" 1]⟩] ∧
        ((storedSegment.putMid 0 ⟨[mkPair "b" 2]⟩).redistribute 2 1).1.bucketsLen =
          (rehash 4 [⟨[mkPair "b" 2]⟩, ⟨[mkPair "a" 1]⟩]).length) ∧
      (true = false → ((storedSegment.putMid 0 ⟨[mkPair "b" 2]⟩).redistribute 2 1).1.buckets =
          (storedSegment.putMid 0 ⟨[mkPair "b" 2]⟩).buckets ∧
        ((storedSegment.putMid 0 ⟨[mkPair "b" 2]⟩).redistribute 2 1).1.bucketsLen =
          (storedSegment.putMid 0 ⟨[mkPair "b" 2]⟩).bucketsLen) ∧
      ((storedSegment.putMid 0 ⟨[mkPair "b" 2]⟩).redistribute 2 1).2 = none ∧
      ((storedSegment.putMid 0 ⟨[mkPair "b" 2]⟩).redistribute 2 1).1.pairTotal =
        (storedSegment.putMid 0 ⟨[mkPair "b" 2]⟩).pairTotal ∧
      ((storedSegment.putMid 0 ⟨[mkPair "b" 2]⟩).redistribute 2 1).1.lock =
        (storedSegment.putMid 0 ⟨[mkPair "b" 2]⟩).lock ∧
      ((storedSegment.putMid 0 ⟨[mkPair "b" 2]⟩).redistribute 2 1).1.pairRedistributor.state =
        2) ∧
    ((exampleSegment.putMid 1 ⟨[mkPair "a" 1]⟩).redistribute 1 1).1.bucketsLen = 2 :=
  ⟨C13_redistribute_applies_answer (storedSegment.putMid 0 ⟨[mkPair "b" 2]⟩) 2 1 2 2 2 ()
      1 (rehash 4 [⟨[mkPair "b" 2]⟩, ⟨[mkPair "a" 1]⟩]) true rfl rfl rfl,
    by decide⟩

/-- C14: on every Put that inserts a key and every Delete that removes one, the policy is
called in the order and with the arguments of section 4.1.1: UpdateThreshold(new total,
`bucketsLen`), then CheckBucketStatus(new total, size of the touched bucket after the
mutation), then Redistributor(status, current bucket array).  For a policy under observation
the log grows by exactly the calls of the specification; the threshold update is always the
first of them, and when neither of the first two calls panics the three calls are made. -/
theorem C14_policy_call_order {V σ : Type} (hash : String → Nat)
    (s : segment V (σ × List (Call V))) (r : PairRedistributor V σ) (st : σ)
    (log : List (Call V)) (hl : s.lock.isSome = true)
    (hr : s.pairRedistributor = (traced r).withState (st, log)) :
    (∀ (p : Pair V) (i : Nat) (b : Bucket V),
      bucketAt s p.Hash = Except.ok (i, b) → (∀ q ∈ b.chain, q.key ≠ p.key) →
      ∃ s1 rest, s.Put p = Except.ok (s1, true, none) ∧
        s1.pairRedistributor.state.2 =
          log ++ specCalls r st ((s.Size + 1) % 2 ^ 64) s.bucketsLen
            (Bucket.Size ⟨b.chain ++ [p]⟩) (s.buckets.set i ⟨b.chain ++ [p]⟩) ∧
        s1.pairRedistributor.state.2 =
          log ++ Call.updateThreshold ((s.Size + 1) % 2 ^ 64) s.bucketsLen :: rest ∧
        (∀ st1 u st2 status,
          r.UpdateThreshold st ((s.Size + 1) % 2 ^ 64) s.bucketsLen = (st1, Except.ok u) →
          r.CheckBucketStatus st1 ((s.Size + 1) % 2 ^ 64) (b.chain.length + 1) =
            (st2, Except.ok status) →
          s1.pairRedistributor.state.2 =
            log ++ [Call.updateThreshold ((s.Size + 1) % 2 ^ 64) s.bucketsLen,
              Call.checkBucketStatus ((s.Size + 1) % 2 ^ 64) (b.chain.length + 1),
              Call.redistributor status (s.buckets.set i ⟨b.chain ++ [p]⟩)])) ∧
    (∀ (key : String) (i : Nat) (b : Bucket V),
      bucketAt s (hash key) = Except.ok (i, b) → (∃ q ∈ b.chain, q.key = key) →
      ∃ s1 rest, s.Delete hash key = Except.ok (s1, true) ∧
        s1.pairRedistributor.state.2 =
          log ++ specCalls r st ((s.Size + (2 ^ 64 - 1)) % 2 ^ 64) s.bucketsLen
            (Bucket.Size ⟨b.chain.eraseP (fun q => decide (q.key = key))⟩)
            (s.buckets.set i ⟨b.chain.eraseP (fun q => decide (q.key = key))⟩) ∧
        s1.pairRedistributor.state.2 =
          log ++ Call.updateThreshold ((s.Size + (2 ^ 64 - 1)) % 2 ^ 64) s.bucketsLen :: rest ∧
        (∀ st1 u st2 status,
          r.UpdateThreshold st ((s.Size + (2 ^ 64 - 1)) % 2 ^ 64) s.bucketsLen =
            (st1, Except.ok u) →
          r.CheckBucketStatus st1 ((s.Size + (2 ^ 64 - 1)) % 2 ^ 64) (b.chain.length - 1) =
            (st2, Except.ok status) →
          s1.pairRedistributor.state.2 =
            log ++ [Call.updateThreshold ((s.Size + (2 ^ 64 - 1)) % 2 ^ 64) s.bucketsLen,
              Call.checkBucketStatus ((s.Size + (2 ^ 64 - 1)) % 2 ^ 64) (b.chain.length - 1),
              Call.redistributor status
                (s.buckets.set i ⟨b.chain.eraseP (fun q => decide (q.key = key))⟩)])) := by
  simp only [segment.Size]
  constructor
  · intro p i b hb hnew
    have htr := redistribute_traced (s.putMid i ⟨b.chain ++ [p]⟩) r st log
      ((s.pairTotal + 1) % 2 ^ 64) (b.chain.length + 1) hr
    simp only [segment.putMid] at htr
    have hsz : Bucket.Size (⟨b.chain ++ [p]⟩ : Bucket V) = b.chain.length + 1 := by
      simp [Bucket.Size]
    obtain ⟨rest, hrest⟩ := specCalls_head r st ((s.pairTotal + 1) % 2 ^ 64) s.bucketsLen
      (b.chain.length + 1) (s.buckets.set i ⟨b.chain ++ [p]⟩)
    refine ⟨_, rest, Put_insert_of_bucketAt s p i b hl hb hnew, ?_, ?_, ?_⟩
    · rw [hsz]
      exact htr
    · rw [← hrest]
      exact htr
    · intro st1 u st2 status h1 h2
      rw [← specCalls_full r st st1 st2 u status _ _ _ _ h1 h2]
      exact htr
  · intro key i b hb hold
    have htr := redistribute_traced
      (s.deleteMid i ⟨b.chain.eraseP (fun q => decide (q.key = key))⟩) r st log
      ((s.pairTotal + (2 ^ 64 - 1)) % 2 ^ 64) (b.chain.length - 1) hr
    simp only [segment.deleteMid] at htr
    have hany : b.chain.any (fun q => decide (q.key = key)) = true := by
      obtain ⟨q, hq, hk⟩ := hold
      exact List.any_eq_true.mpr ⟨q, hq, by simpa using hk⟩
    have hsz : Bucket.Size (⟨b.chain.eraseP (fun q => decide (q.key = key))⟩ : Bucket V) =
        b.chain.length - 1 := by
      simp [Bucket.Size, List.length_eraseP, hany]
    obtain ⟨rest, hrest⟩ := specCalls_head r st ((s.pairTotal + (2 ^ 64 - 1)) % 2 ^ 64)
      s.bucketsLen (b.chain.length - 1)
      (s.buckets.set i ⟨b.chain.eraseP (fun q => decide (q.key = key))⟩)
    refine ⟨_, rest, Delete_remove_of_bucketAt hash s key i b hl hb hold, ?_, ?_, ?_⟩
    · rw [hsz]
      exact htr
    · rw [← hrest]
      exact htr
    · intro st1 u st2 status h1 h2
      rw [← specCalls_full r st st1 st2 u status _ _ _ _ h1 h2]
      exact htr

/-- Witness of C14: the Put of "a" into the observed segment that stores "b" logs the three
calls in order, with total 2, bucket count 2, bucket size 1 and the array after the
insertion. -/
theorem C14_policy_call_order_witness :
    (∃ s1 rest, tracedSegment.Put (mkPair "a" 1) = Except.ok (s1, true, none) ∧
        s1.pairRedistributor.state.2 =
          [] ++ specCalls doublingPolicy 0 ((tracedSegment.Size + 1) % 2 ^ 64)
            tracedSegment.bucketsLen (Bucket.Size ⟨[] ++ [mkPair "a" 1]⟩)
            (tracedSegment.buckets.set 1 ⟨[] ++ [mkPair "a" 1]⟩) ∧
        s1.pairRedistributor.state.2 =
          [] ++ Call.updateThreshold ((tracedSegment.Size + 1) % 2 ^ 64)
            tracedSegment.bucketsLen :: rest ∧
        (∀ st1 u st2 status,
          (doublingPolicy : PairRedistributor Nat Nat).UpdateThreshold 0
            ((tracedSegment.Size + 1) % 2 ^ 64) tracedSegment.bucketsLen = (st1, Except.ok u) →
          (doublingPolicy : PairRedistributor Nat Nat).CheckBucketStatus st1
            ((tracedSegment.Size + 1) % 2 ^ 64) (([] : List (Pair Nat)).length + 1) =
            (st2, Except.ok status) →
          s1.pairRedistributor.state.2 =
            [] ++ [Call.updateThreshold ((tracedSegment.Size + 1) % 2 ^ 64)
                tracedSegment.bucketsLen,
              Call.checkBucketStatus ((tracedSegment.Size + 1) % 2 ^ 64)
                (([] : List (Pair Nat)).length + 1),
              Call.redistributor status (tracedSegment.buckets.set 1 ⟨[] ++ [mkPair "a" 1]⟩)])) ∧
    Option.map (fun s => s.pairRedistributor.state.2)
        (stateAfter (tracedSegment.Put (mkPair "a" 1))) =
      some [Call.updateThreshold 2 2, Call.checkBucketStatus 2 1,
        Call.redistributor 1 [⟨[mkPair "b" 2]⟩, ⟨[mkPair "a" 1]⟩]] ∧
    Option.map (fun s => s.pairRedistributor.state.2)
        (stateAfter (tracedSegment.Delete firstCharHash "b")) =
      some [Call.updateThreshold 0 2, Call.checkBucketStatus 0 0,
        Call.redistributor 0 [⟨[]⟩, ⟨[]⟩]] :=
  ⟨(C14_policy_call_order firstCharHash tracedSegment doublingPolicy 0 [] (by decide) rfl).1
      (mkPair "a" 1) 1 ⟨[]⟩ rfl (by decide),
    by decide, by decide⟩

/-- C15: redistribution runs only after an insertion or a removal.  A Put that overwrites an
existing key leaves the policy object (its state included), `bucketsLen`, the counter and the
lock as they were, and the bucket array is the same array with the one bucket overwritten in
place; a Delete of an absent key leaves the whole segment as it was. -/
theorem C15_no_redistribution_without_change {V σ : Type} (hash : String → Nat)
    (s : segment V σ) (hl : s.lock.isSome = true) :
    (∀ (p : Pair V) (i : Nat) (b : Bucket V),
      bucketAt s p.Hash = Except.ok (i, b) → (∃ q ∈ b.chain, q.key = p.key) →
      ∃ s1, s.Put p = Except.ok (s1, false, none) ∧
        s1.pairRedistributor = s.pairRedistributor ∧
        s1.buckets = s.buckets.set i ⟨overwrite p b.chain⟩ ∧
        s1.buckets.length = s.buckets.length ∧
        s1.bucketsLen = s.bucketsLen ∧ s1.Size = s.Size ∧ s1.lock = s.lock) ∧
    (∀ (key : String) (i : Nat) (b : Bucket V),
      bucketAt s (hash key) = Except.ok (i, b) → (∀ q ∈ b.chain, q.key ≠ key) →
      ∃ s1, s.Delete hash key = Except.ok (s1, false) ∧ s1 = s ∧
        s1.pairRedistributor = s.pairRedistributor ∧ s1.buckets = s.buckets ∧
        s1.bucketsLen = s.bucketsLen ∧ s1.Size = s.Size) := by
  constructor
  · intro p i b hb hold
    refine ⟨_, Put_overwrite_of_bucketAt s p i b hl hb hold, rfl, rfl, ?_, rfl, rfl, rfl⟩
    show (s.buckets.set i _).length = s.buckets.length
    rw [List.length_set]
  · intro key i b hb hnew
    exact ⟨s, Delete_absent_of_bucketAt hash s key i b hl hb hnew, rfl, rfl, rfl, rfl, rfl⟩

/-- Witness of C15: on the observed segment that stores "b", the overwrite of "b" and the
Delete of the absent key "zz" leave the log of policy calls empty. -/
theorem C15_no_redistribution_without_change_witness :
    (∃ s1, tracedSegment.Put (mkPair "b" 9) = Except.ok (s1, false, none) ∧
        s1.pairRedistributor = tracedSegment.pairRedistributor ∧
        s1.buckets = tracedSegment.buckets.set 0 ⟨overwrite (mkPair "b" 9) [mkPair "b" 2]⟩ ∧
        s1.buckets.length = tracedSegment.buckets.length ∧
        s1.bucketsLen = tracedSegment.bucketsLen ∧ s1.Size = tracedSegment.Size ∧
        s1.lock = tracedSegment.lock) ∧
    (∃ s1, tracedSegment.Delete firstCharHash "zz" = Except.ok (s1, false) ∧
        s1 = tracedSegment ∧
        s1.pairRedistributor = tracedSegment.pairRedistributor ∧
        s1.buckets = tracedSegment.buckets ∧
        s1.bucketsLen = tracedSegment.bucketsLen ∧ s1.Size = tracedSegment.Size) ∧
    Option.map (fun s => s.pairRedistributor.state.2)
        (stateAfter (tracedSegment.Put (mkPair "b" 9))) = some [] ∧
    Option.map (fun s => s.pairRedistributor.state.2)
        (stateAfter (tracedSegment.Delete firstCharHash "zz")) = some [] :=
  ⟨(C15_no_redistribution_without_change firstCharHash tracedSegment (by decide)).1
      (mkPair "b" 9) 0 ⟨[mkPair "b" 2]⟩ rfl ⟨mkPair "b" 2, by decide, rfl⟩,
    (C15_no_redistribution_without_change firstCharHash tracedSegment (by decide)).2
      "zz" 0 ⟨[mkPair "b" 2]⟩ rfl (by decide),
    by decide, by decide⟩

theorem redistribute_snd {V σ : Type} (s : segment V σ) (t z : Nat) :
    (∀ st msg,
      s.pairRedistributor.UpdateThreshold s.pairRedistributor.state t s.bucketsLen =
        (st, Except.error msg) →
      (s.redistribute t z).2 = some (newPairRedistributorError msg)) ∧
    (∀ st1 u st msg,
      s.pairRedistributor.UpdateThreshold s.pairRedistributor.state t s.bucketsLen =
        (st1, Except.ok u) →
      s.pairRedistributor.CheckBucketStatus st1 t z = (st, Except.error msg) →
      (s.redistribute t z).2 = some (newPairRedistributorError msg)) ∧
    (∀ st1 u st2 status st msg,
      s.pairRedistributor.UpdateThreshold s.pairRedistributor.state t s.bucketsLen =
        (st1, Except.ok u) →
      s.pairRedistributor.CheckBucketStatus st1 t z = (st2, Except.ok status) →
      s.pairRedistributor.Redistributor st2 status s.buckets = (st, Except.error msg) →
      (s.redistribute t z).2 = some (newPairRedistributorError msg)) ∧
    (∀ st1 u st2 status st res,
      s.pairRedistributor.UpdateThreshold s.pairRedistributor.state t s.bucketsLen =
        (st1, Except.ok u) →
      s.pairRedistributor.CheckBucketStatus st1 t z = (st2, Except.ok status) →
      s.pairRedistributor.Redistributor st2 status s.buckets = (st, Except.ok res) →
      (s.redistribute t z).2 = none) := by
  refine ⟨?_, ?_, ?_, ?_⟩
  · intro st msg h1
    unfold segment.redistribute
    simp only [h1]
  · intro st1 u st msg h1 h2
    unfold segment.redistribute
    simp only [h1, h2]
  · intro st1 u st2 status st msg h1 h2 h3
    unfold segment.redistribute
    simp only [h1, h2, h3]
  · intro st1 u st2 status st res h1 h2 h3
    obtain ⟨new, changed⟩ := res
    unfold segment.redistribute
    simp only [h1, h2, h3]
    cases changed <;> rfl

/-- C16: the redistribution step never lets a panic of the policy escape.  `redistribute`
returns for every segment and every policy; it returns the PairRedistributorError that carries
the message `msg` exactly when one of UpdateThreshold, CheckBucketStatus and Redistributor
panics with `msg`; it returns no error exactly when none of them panics; and it returns no
other error. -/
theorem C16_redistribute_catches_faults {V σ : Type} (s : segment V σ) (t z : Nat) :
    (∀ msg, (s.redistribute t z).2 = some (newPairRedistributorError msg) ↔
      PolicyFaultsWith s t z msg) ∧
    ((s.redistribute t z).2 = none ↔ ¬ PolicyFaults s t z) ∧
    (∀ e, (s.redistribute t z).2 = some e → ∃ msg, e = newPairRedistributorError msg) := by
  obtain ⟨hU, hC, hR, hN⟩ := redistribute_snd s t z
  rcases h1 : s.pairRedistributor.UpdateThreshold s.pairRedistributor.state t s.bucketsLen with
    ⟨st1, msg1 | u⟩
  · have hres := hU st1 msg1 h1
    refine ⟨?_, ?_, ?_⟩
    · intro msg
      constructor
      · intro h
        rw [hres] at h
        have hm : msg1 = msg := by simpa [newPairRedistributorError] using h
        subst hm
        exact Or.inl ⟨st1, h1⟩
      · intro hf
        rcases hf with ⟨st, h⟩ | ⟨a, b, st, ha, _⟩ | ⟨a, b, c, d, st, ha, _, _⟩
        · rw [h1] at h
          have hm := Except.error.inj (Prod.mk.inj h).2
          rw [← hm]
          exact hres
        · rw [h1] at ha
          exact Except.noConfusion (Prod.mk.inj ha).2
        · rw [h1] at ha
          exact Except.noConfusion (Prod.mk.inj ha).2
    · rw [hres]
      constructor
      · intro h
        exact Option.noConfusion h
      · intro h
        exact absurd (Or.inl ⟨st1, msg1, h1⟩) h
    · intro e he
      rw [hres] at he
      exact ⟨msg1, (Option.some.inj he).symm⟩
  · rcases h2 : s.pairRedistributor.CheckBucketStatus st1 t z with ⟨st2, msg2 | status⟩
    · have hres := hC st1 u st2 msg2 h1 h2
      refine ⟨?_, ?_, ?_⟩
      · intro msg
        constructor
        · intro h
          rw [hres] at h
          have hm : msg2 = msg := by simpa [newPairRedistributorError] using h
          subst hm
          exact Or.inr (Or.inl ⟨st1, u, st2, h1, h2⟩)
        · intro hf
          rcases hf with ⟨st, h⟩ | ⟨a, b, st, ha, hb⟩ | ⟨a, b, c, d, st, ha, hb, _⟩
          · rw [h1] at h
            exact Except.noConfusion (Prod.mk.inj h).2
          · rw [h1] at ha
            have ha1 := (Prod.mk.inj ha).1
            subst ha1
            rw [h2] at hb
            have hm := Except.error.inj (Prod.mk.inj hb).2
            rw [← hm]
            exact hres
          · rw [h1] at ha
            have ha1 := (Prod.mk.inj ha).1
            subst ha1
            rw [h2] at hb
            exact Except.noConfusion (Prod.mk.inj hb).2
      · rw [hres]
        constructor
        · intro h
          exact Option.noConfusion h
        · intro h
          exact absurd (Or.inr (Or.inl ⟨st1, u, st2, msg2, h1, h2⟩)) h
      · intro e he
        rw [hres] at he
        exact ⟨msg2, (Option.some.inj he).symm⟩
    · rcases h3 : s.pairRedistributor.Redistributor st2 status s.buckets with
        ⟨st3, msg3 | res⟩
      · have hres := hR st1 u st2 status st3 msg3 h1 h2 h3
        refine ⟨?_, ?_, ?_⟩
        · intro msg
          constructor
          · intro h
            rw [hres] at h
            have hm : msg3 = msg := by simpa [newPairRedistributorError] using h
            subst hm
            exact Or.inr (Or.inr ⟨st1, u, st2, status, st3, h1, h2, h3⟩)
          · intro hf
            rcases hf with ⟨st, h⟩ | ⟨a, b, st, ha, hb⟩ | ⟨a, b, c, d, st, ha, hb, hc⟩
            · rw [h1] at h
              exact Except.noConfusion (Prod.mk.inj h).2
            · rw [h1] at ha
              have ha1 := (Prod.mk.inj ha).1
              subst ha1
              rw [h2] at hb
              exact Except.noConfusion (Prod.mk.inj hb).2
            · rw [h1] at ha
              have ha1 := (Prod.mk.inj ha).1
              subst ha1
              rw [h2] at hb
              have hb1 := (Prod.mk.inj hb).1
              have hb2 := Except.ok.inj (Prod.mk.inj hb).2
              subst hb1
              subst hb2
              rw [h3] at hc
              have hm := Except.error.inj (Prod.mk.inj hc).2
              rw [← hm]
              exact hres
        · rw [hres]
          constructor
          · intro h
            exact Option.noConfusion h
          · intro h
            exact absurd (Or.inr (Or.inr ⟨st1, u, st2, status, st3, msg3, h1, h2, h3⟩)) h
        · intro e he
          rw [hres] at he
          exact ⟨msg3, (Option.some.inj he).symm⟩
      · have hres := hN st1 u st2 status st3 res h1 h2 h3
        have hnf : ¬ PolicyFaults s t z := by
          intro hf
          rcases hf with ⟨st, m, h⟩ | ⟨a, b, st, m, ha, hb⟩ | ⟨a, b, c, d, st, m, ha, hb, hc⟩
          · rw [h1] at h
            exact Except.noConfusion (Prod.mk.inj h).2
          · rw [h1] at ha
            have ha1 := (Prod.mk.inj ha).1
            subst ha1
            rw [h2] at hb
            exact Except.noConfusion (Prod.mk.inj hb).2
          · rw [h1] at ha
            have ha1 := (Prod.mk.inj ha).1
            subst ha1
            rw [h2] at hb
            have hb1 := (Prod.mk.inj hb).1
            have hb2 := Except.ok.inj (Prod.mk.inj hb).2
            subst hb1
            subst hb2
            rw [h3] at hc
            exact Except.noConfusion (Prod.mk.inj hc).2
        refine ⟨?_, ?_, ?_⟩
        · intro msg
          constructor
          · intro h
            rw [hres] at h
            exact Option.noConfusion h
          · intro hf
            exfalso
            apply hnf
            rcases hf with ⟨st, h⟩ | ⟨a, b, st, ha, hb⟩ | ⟨a, b, c, d, st, ha, hb, hc⟩
            · exact Or.inl ⟨st, msg, h⟩
            · exact Or.inr (Or.inl ⟨a, b, st, msg, ha, hb⟩)
            · exact Or.inr (Or.inr ⟨a, b, c, d, st, msg, ha, hb, hc⟩)
        · exact ⟨fun _ => hnf, fun _ => hres⟩
        · intro e he
          rw [hres] at he
          exact Option.noConfusion he

/-- Witness of C16: the policy that panics in its threshold update, and the doubling policy that
does not panic. -/
theorem C16_redistribute_catches_faults_witness :
    (faultySegment.redistribute 2 1).2 = some (newPairRedistributorError "threshold overflow") ∧
    PolicyFaultsWith faultySegment 2 1 "threshold overflow" ∧
    (storedSegment.redistribute 1 1).2 = none ∧ ¬ PolicyFaults storedSegment 1 1 :=
  ⟨by decide,
    ((C16_redistribute_catches_faults faultySegment 2 1).1 "threshold overflow").mp (by decide),
    by decide,
    (C16_redistribute_catches_faults storedSegment 1 1).2.1.mp (by decide)⟩

/-- C17: `GetWithHash key h` is the chain lookup of `key` in the bucket at index
`h mod bucketsLen` of the bucket array, and `Get key` is `GetWithHash key (hash key)`; hence
when the array is well formed (every Pair sits in the bucket `Hash() mod bucketsLen`, its hash
is the hash of its key, no key is stored twice) Get returns the stored Pair for every stored
key and absent for every key that is not stored. -/
theorem C17_get_is_chain_lookup {V σ : Type} (hash : String → Nat) (s : segment V σ)
    (hl : s.lock.isSome = true) (hlen : s.bucketsLen = s.buckets.length)
    (hpos : 0 < s.bucketsLen) :
    (∀ key h, ∃ b, s.buckets[h % s.bucketsLen]? = some b ∧
      s.GetWithHash key h = Except.ok (b.Get key)) ∧
    (∀ key, s.Get hash key = s.GetWithHash key (hash key)) ∧
    (WellFormed hash s.buckets →
      (∀ q ∈ allPairs s.buckets, s.Get hash q.key = Except.ok (some q)) ∧
      (∀ key, (∀ q ∈ allPairs s.buckets, q.key ≠ key) → s.Get hash key = Except.ok none)) := by
  refine ⟨?_, fun _ => rfl, ?_⟩
  · intro key h
    obtain ⟨b, hb⟩ := bucket_exists s.buckets h (by omega)
    refine ⟨b, by rw [hlen]; exact hb, GetWithHash_eq s key h b hl hlen hb⟩
  · intro hwf
    have hinv : s.Inv hash := ⟨hl, hlen, hwf⟩
    exact ⟨fun q hq => (Get_some_iff hash s hinv q.key q).mpr ⟨hq, rfl⟩,
      fun key habs => (Get_none_iff hash s hinv key).mpr habs⟩

/-- Witness of C17: the segment that stores "a" in bucket 1 of 2. -/
theorem C17_get_is_chain_lookup_witness :
    (∀ q ∈ allPairs storedSegment.buckets,
        storedSegment.Get firstCharHash q.key = Except.ok (some q)) ∧
    (∀ key, (∀ q ∈ allPairs storedSegment.buckets, q.key ≠ key) →
        storedSegment.Get firstCharHash key = Except.ok none) ∧
    (storedSegment.Get firstCharHash "a").toOption = some (some (mkPair "a" 1)) ∧
    (storedSegment.GetWithHash "a" 96).toOption = some none :=
  ⟨((C17_get_is_chain_lookup firstCharHash storedSegment (by decide) (by decide)
      (by decide)).2.2 storedSegment_inv.wf).1,
    ((C17_get_is_chain_lookup firstCharHash storedSegment (by decide) (by decide)
      (by decide)).2.2 storedSegment_inv.wf).2,
    by decide, by decide⟩

/-- C18: reads are pure.  With the segment passed through their statements, GetWithHash, Get
and Size leave behind the segment they were given - bucket array, buckets, `bucketsLen`,
counter and policy state included - they return what the methods return, and a repeated read
returns the same result. -/
theorem C18_reads_are_pure {V σ : Type} (hash : String → Nat) (s : segment V σ) (key : String)
    (h : Nat) :
    (∀ s1 r, s.GetWithHashState key h = Except.ok (s1, r) →
      s1 = s ∧ s1.buckets = s.buckets ∧ s1.bucketsLen = s.bucketsLen ∧ s1.Size = s.Size ∧
      s1.pairRedistributor = s.pairRedistributor ∧
      s.GetWithHash key h = Except.ok r ∧ s1.GetWithHashState key h = Except.ok (s1, r)) ∧
    (∀ s1 r, s.GetState hash key = Except.ok (s1, r) →
      s1 = s ∧ s1.buckets = s.buckets ∧ s1.bucketsLen = s.bucketsLen ∧ s1.Size = s.Size ∧
      s1.pairRedistributor = s.pairRedistributor ∧
      s.Get hash key = Except.ok r ∧ s1.GetState hash key = Except.ok (s1, r)) ∧
    (s.SizeState.1 = s ∧ s.SizeState.2 = s.Size ∧ s.SizeState.1.SizeState = s.SizeState) ∧
    (∀ f, s.GetWithHashState key h = Except.error f ↔ s.GetWithHash key h = Except.error f) := by
  have key1 : ∀ (k : String) (h0 : Nat) (s1 : segment V σ) (r : Option (Pair V)),
      s.GetWithHashState k h0 = Except.ok (s1, r) →
      s1 = s ∧ s.GetWithHash k h0 = Except.ok r := by
    intro k h0 s1 r he
    unfold segment.GetWithHashState at he
    unfold segment.GetWithHash
    cases ha : acquire s.lock with
    | error f => rw [ha] at he; exact Except.noConfusion he
    | ok u =>
      rw [ha] at he
      simp only at he ⊢
      cases hb : bucketAt s h0 with
      | error f => rw [hb] at he; exact Except.noConfusion he
      | ok ib =>
        rw [hb] at he
        simp only at he ⊢
        have h1 := Except.ok.inj he
        exact ⟨(Prod.mk.inj h1).1.symm, by rw [(Prod.mk.inj h1).2]⟩
  refine ⟨?_, ?_, ⟨rfl, rfl, rfl⟩, ?_⟩
  · intro s1 r he
    obtain ⟨h1, h2⟩ := key1 key h s1 r he
    subst h1
    exact ⟨rfl, rfl, rfl, rfl, rfl, h2, he⟩
  · intro s1 r he
    obtain ⟨h1, h2⟩ := key1 key (hash key) s1 r he
    subst h1
    exact ⟨rfl, rfl, rfl, rfl, rfl, h2, he⟩
  · intro f
    unfold segment.GetWithHashState segment.GetWithHash
    cases ha : acquire s.lock with
    | error f0 =>
      simp only
      constructor
      · intro h1
        rw [Except.error.inj h1]
      · intro h1
        rw [Except.error.inj h1]
    | ok u =>
      simp only
      cases hb : bucketAt s h with
      | error f0 =>
        simp only
        constructor
        · intro h1
          rw [Except.error.inj h1]
        · intro h1
          rw [Except.error.inj h1]
      | ok ib =>
        simp only
        constructor
        · intro h1
          exact Except.noConfusion h1
        · intro h1
          exact Except.noConfusion h1

/-- Witness of C18: a read of the stored key "a" on the observed segment returns the Pair and
leaves the log of policy calls empty. -/
theorem C18_reads_are_pure_witness :
    (∃ s1, tracedSegment.GetState firstCharHash "b" = Except.ok (s1, some (mkPair "b" 2)) ∧
      s1 = tracedSegment ∧ s1.pairRedistributor.state.2 = [] ∧
      tracedSegment.Get firstCharHash "b" = Except.ok (some (mkPair "b" 2)) ∧
      s1.GetState firstCharHash "b" = Except.ok (s1, some (mkPair "b" 2))) :=
  ⟨tracedSegment, rfl,
    ((C18_reads_are_pure firstCharHash tracedSegment "b" 0).2.1 tracedSegment
      (some (mkPair "b" 2)) rfl).1,
    rfl,
    ((C18_reads_are_pure firstCharHash tracedSegment "b" 0).2.1 tracedSegment
      (some (mkPair "b" 2)) rfl).2.2.2.2.2.1,
    ((C18_reads_are_pure firstCharHash tracedSegment "b" 0).2.1 tracedSegment
      (some (mkPair "b" 2)) rfl).2.2.2.2.2.2⟩

end CurrentMap
